import Mathlib

/-!
# RouteSimply — route-generation core, shallow embedding

This file embeds the route-generation and sequencing engine of the
RouteSimply server (`kMeansClustering`, `nearestNeighborOrdering`,
`calculateRouteDistance`, `optimizeRouteWithGoogle`, `generateRoutesForDay`,
`generateGoogleMapsUrl`) and proves the specified properties about it.

Modelling conventions:
* JS numbers are modelled as `ℚ`; `Math.round` is `jsRound` (half toward +∞),
  `Math.floor`/`Math.ceil` are `Int.floor`/`Int.ceil`.
* `calculateHaversineDistance` computes with trigonometric functions whose
  floating-point values have no executable counterpart here; every algorithm
  of the engine is generic in the distance function, so the embedding takes
  the distance function `d4 : ℚ → ℚ → ℚ → ℚ → ℚ` (arguments
  `lat1 lon1 lat2 lon2`, as in the source) as an explicit parameter.
* `null`/`undefined` become `Option`; JS truthiness tests on numbers and
  strings (`x || y`, `x ? a : b`) are modelled by explicit helpers that
  treat `0` and `""` as falsy, exactly as JS does.
* Asynchronous provider calls (`fetch`) are modelled by a `FetchOutcome`
  value describing the observable outcome of the network exchange; a thrown
  exception (network error, JSON parse error) is the `throwOut` outcome.
* `randomUUID()` stop ids are omitted from `RouteStop`: they are fresh
  opaque identifiers that no computation of the engine reads.
-/

namespace RouteSimply

/-- JS `Math.round`: rounds half toward positive infinity. -/
def jsRound (q : ℚ) : ℤ := ⌊q + 1/2⌋

/-- The rounding `Math.round((meters / 1000) * 10) / 10`: meters → kilometers, one decimal. -/
def roundKm1 (meters : ℚ) : ℚ := (jsRound (meters / 1000 * 10) : ℚ) / 10

/-- JS `x || d` on a possibly-null/undefined number: `0` is falsy. -/
def jsOrQ (x : Option ℚ) (d : ℚ) : ℚ :=
  match x with
  | none => d
  | some v => if v = 0 then d else v

/-- JS `x || d` on a possibly-null/undefined string: `""` is falsy. -/
def jsOrStr (x : Option String) (d : String) : String :=
  match x with
  | none => d
  | some v => if v = "" then d else v

/-- JS `x || undefined` on a possibly-null number (`0` becomes `undefined`). -/
def jsUndefQ (x : Option ℚ) : Option ℚ :=
  match x with
  | none => none
  | some v => if v = 0 then none else some v

/-- JS `x || undefined` on a possibly-null string (`""` becomes `undefined`). -/
def jsUndefStr (x : Option String) : Option String :=
  match x with
  | none => none
  | some v => if v = "" then none else some v

/-- JS truthiness of a possibly-absent string (used for the API-key guard). -/
def jsTruthyStr (x : Option String) : Bool :=
  match x with
  | none => false
  | some v => v ≠ ""

/-- Input stop (`Location` of `shared/schema.ts`, the fields the engine reads). -/
structure Location where
  id : String
  address : String
  customerName : String
  serviceType : Option String
  notes : Option String
  lat : Option ℚ
  lng : Option ℚ
  deriving DecidableEq, Repr, Inhabited

/-- Output stop (`RouteStop` of `shared/schema.ts`; the `randomUUID` id is
omitted, see the module comment). -/
structure RouteStop where
  locationId : String
  address : String
  customerName : String
  serviceType : Option String
  notes : Option String
  lat : Option ℚ
  lng : Option ℚ
  sequence : ℕ
  deriving DecidableEq, Repr, Inhabited

/-- A work location / starting point (`WorkLocation` of `shared/schema.ts`;
`lat`/`lng` are non-null columns). -/
structure WorkLocation where
  id : String
  name : String
  address : String
  lat : ℚ
  lng : ℚ
  deriving DecidableEq, Repr, Inhabited

/-- The fields of a created route (`storage.createRoute` argument) that the
engine computes; date/day/status/driver metadata is passed through verbatim
and omitted here. -/
structure GeneratedRoute where
  stopsJson : List RouteStop
  routeLink : String
  totalDistance : Option ℚ
  estimatedTime : Option ℤ
  stopCount : ℕ
  deriving DecidableEq, Repr, Inhabited

/-- One entry of `data.routes` in a Google Routes API response body.
`durationSeconds` models the `"1234s"` duration string already parsed. -/
structure GoogleRouteData where
  distanceMeters : Option ℚ
  durationSeconds : Option ℕ
  optimizedIntermediateWaypointIndex : Option (List ℕ)
  deriving DecidableEq, Repr, Inhabited

/-- Observable outcome of the `fetch` + `response.json()` exchange:
`throwOut` is a thrown exception (network error / parse error), `reply ok routes`
is a parsed body with HTTP success flag `ok` and optional `routes` field. -/
inductive FetchOutcome where
  | throwOut : FetchOutcome
  | reply (ok : Bool) (routes : Option (List GoogleRouteData)) : FetchOutcome
  deriving DecidableEq, Repr, Inhabited

/-- The `GoogleRoutesOptimizationResult` interface of the source. -/
structure GoogleRoutesOptimizationResult where
  optimizedStops : List RouteStop
  totalDistanceKm : ℚ
  estimatedTimeMinutes : ℤ
  deriving DecidableEq, Repr, Inhabited

/-- JS `list.slice(1, -1)`: everything strictly between the first and the last
element. -/
def middleStops (l : List RouteStop) : List RouteStop := (l.drop 1).dropLast

/-- Apply `f` with a running index, starting at `i0`
(models `array.map((x, index) => ...)` and indexed `forEach` loops). -/
def mapSeq (f : ℕ → α → β) : ℕ → List α → List β
  | _, [] => []
  | i, x :: t => f i x :: mapSeq f (i + 1) t

/-- The `minDist = Infinity; for (...) { if (dist < minDist) update }` scan
used by both `kMeansClustering` (nearest centroid) and
`nearestNeighborOrdering` (nearest remaining stop). `i` is the index of the
element under scrutiny, `best` the best index so far, `bestD` the best
distance so far (`none` standing for `Infinity`). -/
def scanMin (f : α → ℚ) : List α → ℕ → ℕ → Option ℚ → ℕ
  | [], _, best, _ => best
  | x :: t, i, best, bestD =>
    match bestD with
    | none => scanMin f t (i + 1) i (some (f x))
    | some bd =>
      if f x < bd then scanMin f t (i + 1) i (some (f x))
      else scanMin f t (i + 1) best (some bd)

/-- Index of the first element of `l` with minimal `f`-value (`0` on `[]`). -/
def argminScan (f : α → ℚ) (l : List α) : ℕ := scanMin f l 0 0 none

/-- A k-means centroid (always a defined pair of rationals in this model). -/
structure Centroid where
  lat : ℚ
  lng : ℚ
  deriving DecidableEq, Repr, Inhabited

/-- TS `loc.lat!` on a location already checked to be located. -/
def latOf (loc : Location) : ℚ := loc.lat.getD 0

/-- TS `loc.lng!` on a location already checked to be located. -/
def lngOf (loc : Location) : ℚ := loc.lng.getD 0

/-- The test `loc.lat != null && loc.lng != null`. -/
def isLocated (loc : Location) : Bool := loc.lat.isSome && loc.lng.isSome

/-- The filter `locations.filter(loc => loc.lat != null && loc.lng != null)`. -/
def validLocations (locations : List Location) : List Location :=
  locations.filter isLocated

/-- Index of the centroid nearest to `loc`, first index winning ties — the
inner `for (let c = 0; ...)` loop of `kMeansClustering`. -/
def closestCentroid (d4 : ℚ → ℚ → ℚ → ℚ → ℚ) (loc : Location) (cs : List Centroid) : ℕ :=
  argminScan (fun c => d4 (latOf loc) (lngOf loc) c.lat c.lng) cs

/-- Add one member to the `newCentroids` accumulator cell of its cluster:
each cell is `(lat sum, lng sum, member count)`. -/
def addToSums (sums : List (ℚ × ℚ × ℕ)) (loc : Location) (c : ℕ) : List (ℚ × ℚ × ℕ) :=
  let s := sums.getD c (0, 0, 0)
  sums.set c (s.1 + latOf loc, s.2.1 + lngOf loc, s.2.2 + 1)

/-- The member-accumulation loop of the "Update centroids" step. -/
def sumMembers : List (Location × ℕ) → List (ℚ × ℚ × ℕ) → List (ℚ × ℚ × ℕ)
  | [], sums => sums
  | (loc, c) :: rest, sums => sumMembers rest (addToSums sums loc c)

/-- The "Update centroids" step: a centroid with at least one member becomes
the arithmetic mean of its members; a memberless centroid keeps its previous
coordinates. -/
def updateCentroids (valid : List Location) (k : ℕ) (asg : List ℕ)
    (cs : List Centroid) : List Centroid :=
  let sums := sumMembers (valid.zip asg) (List.replicate k (0, 0, 0))
  (List.range k).map fun c =>
    let s := sums.getD c (0, 0, 0)
    if 0 < s.2.2 then ⟨s.1 / (s.2.2 : ℚ), s.2.1 / (s.2.2 : ℚ)⟩ else cs.getD c ⟨0, 0⟩

/-- The `for (let iter = 0; iter < maxIterations; iter++)` refinement loop:
assign every location to its nearest centroid, stop early on convergence,
otherwise update the centroids and continue. Returns the final assignments. -/
def kmeansLoop (d4 : ℚ → ℚ → ℚ → ℚ → ℚ) (valid : List Location) (k : ℕ) :
    ℕ → List Centroid → List ℕ → List ℕ
  | 0, _, asg => asg
  | fuel + 1, cs, asg =>
    let newAsg := valid.map fun loc => closestCentroid d4 loc cs
    if newAsg = asg then newAsg
    else kmeansLoop d4 valid k fuel (updateCentroids valid k newAsg cs) newAsg

/-- Seed `k` centroids from evenly spaced positions (`floor(n/k)` stride). -/
def initialCentroids (valid : List Location) (k : ℕ) : List Centroid :=
  let n := valid.length
  let step := n / k
  (List.range k).map fun i =>
    let loc := valid.getD (min (i * step) (n - 1)) default
    ⟨latOf loc, lngOf loc⟩

/-- Function `kMeansClustering` of the source: geographic grouping of the located
input stops into at most `k` non-empty clusters. -/
def kMeansClustering (d4 : ℚ → ℚ → ℚ → ℚ → ℚ) (locations : List Location)
    (k : ℕ) : List (List Location) :=
  let valid := validLocations locations
  if valid.length = 0 ∨ k = 0 then []
  else if valid.length ≤ k then valid.map fun loc => [loc]
  else
    let asg := kmeansLoop d4 valid k 20 (initialCentroids valid k)
      (List.replicate valid.length 0)
    ((List.range k).map fun c =>
      ((valid.zip asg).filter fun p => p.2 = c).map Prod.fst).filter
      fun cluster => 0 < cluster.length

/-- The `while (remaining.length > 0)` walk of `nearestNeighborOrdering`;
`fuel` equals `remaining.length` at every call. -/
def nnWalk (d4 : ℚ → ℚ → ℚ → ℚ → ℚ) : ℕ → Location → List Location → List Location
  | 0, _, _ => []
  | fuel + 1, current, remaining =>
    match remaining with
    | [] => []
    | _ :: _ =>
      let i := argminScan
        (fun loc => d4 (latOf current) (lngOf current) (latOf loc) (lngOf loc)) remaining
      (remaining.getD i default) ::
        nnWalk d4 fuel (remaining.getD i default) (remaining.eraseIdx i)

/-- Function `nearestNeighborOrdering` of the source: greedy nearest-neighbor tour
starting at the first stop. -/
def nearestNeighborOrdering (d4 : ℚ → ℚ → ℚ → ℚ → ℚ)
    (locations : List Location) : List Location :=
  if locations.length ≤ 1 then locations
  else
    match locations with
    | [] => []
    | first :: rest => first :: nnWalk d4 rest.length first rest

/-- The `current.lat == null || current.lng == null || next.lat == null ||
next.lng == null` test on a consecutive pair. -/
def legBad (p : RouteStop × RouteStop) : Bool :=
  p.1.lat.isNone || p.1.lng.isNone || p.2.lat.isNone || p.2.lng.isNone

/-- The Haversine-meters value of a consecutive pair (on present coordinates). -/
def legMeters (d4 : ℚ → ℚ → ℚ → ℚ → ℚ) (p : RouteStop × RouteStop) : ℚ :=
  d4 (p.1.lat.getD 0) (p.1.lng.getD 0) (p.2.lat.getD 0) (p.2.lng.getD 0)

/-- The summation loop of `calculateRouteDistance`: `none` is the early
`return null` on a consecutive pair with a missing coordinate. -/
def sumLegs (d4 : ℚ → ℚ → ℚ → ℚ → ℚ) : List (RouteStop × RouteStop) → Option ℚ
  | [] => some 0
  | p :: rest =>
    if legBad p then none
    else (sumLegs d4 rest).map fun s => legMeters d4 p + s

/-- The consecutive pairs `(stops[i], stops[i+1])`, `0 ≤ i ≤ length - 2`. -/
def routeLegs (stops : List RouteStop) : List (RouteStop × RouteStop) :=
  stops.zip (stops.drop 1)

/-- Function `calculateRouteDistance` of the source: total distance of an ordered stop
list in kilometers at one decimal, `none` when a pair lacks coordinates. -/
def calculateRouteDistance (d4 : ℚ → ℚ → ℚ → ℚ → ℚ)
    (stops : List RouteStop) : Option ℚ :=
  if stops.length < 2 then some 0
  else (sumLegs d4 (routeLegs stops)).map roundKm1

/-- UTF-8 bytes (as naturals) of one unicode scalar value. -/
def utf8Bytes (c : Char) : List ℕ :=
  let n := c.toNat
  if n < 128 then [n]
  else if n < 2048 then [192 + n / 64, 128 + n % 64]
  else if n < 65536 then [224 + n / 4096, 128 + n / 64 % 64, 128 + n % 64]
  else [240 + n / 262144, 128 + n / 4096 % 64, 128 + n / 64 % 64, 128 + n % 64]

/-- The characters ECMA-262 `encodeURIComponent` leaves unescaped. -/
def uriUnescaped (c : Char) : Bool :=
  ('A' ≤ c && c ≤ 'Z') || ('a' ≤ c && c ≤ 'z') || ('0' ≤ c && c ≤ '9') ||
    c == '-' || c == '_' || c == '.' || c == '!' || c == '~' || c == '*' ||
    c == '\'' || c == '(' || c == ')'

/-- Uppercase hexadecimal digit for `n < 16`. -/
def hexDigitChar (n : ℕ) : Char :=
  if n < 10 then Char.ofNat (48 + n) else Char.ofNat (55 + n)

/-- The `%XY` percent-escape of one byte. -/
def percentByte (b : ℕ) : String :=
  String.mk ['%', hexDigitChar (b / 16), hexDigitChar (b % 16)]

/-- ECMA-262 `encodeURIComponent` (on well-formed unicode input; a JS string
with a lone surrogate, on which the builtin throws, is not representable). -/
def encodeURIComponent (s : String) : String :=
  String.join (s.toList.map fun c =>
    if uriUnescaped c then String.mk [c]
    else String.join ((utf8Bytes c).map percentByte))

/-- Function `generateGoogleMapsUrl` of the source. -/
def generateGoogleMapsUrl (stops : List RouteStop) : String :=
  if stops.length = 0 then ""
  else "https://www.google.com/maps/dir/" ++
    String.intercalate "/" (stops.map fun stop => encodeURIComponent stop.address)

/-- Function `optimizeRouteWithGoogle`, with the network exchange abstracted to its
observable `FetchOutcome`. A provider waypoint index that is out of range
yields an `undefined` intermediate in JS; the model totalizes that lookup
with a default (the theorems that rely on the reordered stops assume
in-range indices). -/
def optimizeRouteWithGoogle (apiKey : Option String) (outcome : FetchOutcome)
    (stops : List RouteStop) : Option GoogleRoutesOptimizationResult :=
  if ¬ jsTruthyStr apiKey then none
  else if stops.length < 2 then none
  else if (stops.filter fun s => s.lat.isSome && s.lng.isSome).length ≠ stops.length then none
  else
    match outcome with
    | .throwOut => none
    | .reply ok routes? =>
      if ¬ ok then none
      else
        match routes? with
        | none => none
        | some [] => none
        | some (route :: _) =>
          let origin := stops.headD default
          let dest := stops.getLastD default
          let intermediates := middleStops stops
          let totalDistanceKm := roundKm1 (jsOrQ route.distanceMeters 0)
          let estimatedTimeMinutes : ℤ :=
            match route.durationSeconds with
            | none => 0
            | some s => ⌈(s : ℚ) / 60⌉
          let optimizedStops :=
            match route.optimizedIntermediateWaypointIndex with
            | some idxs =>
              if 0 < intermediates.length then
                origin :: (idxs.map fun idx => intermediates.getD idx default) ++ [dest]
              else stops
            | none => stops
          some ⟨mapSeq (fun i s => { s with sequence := i + 1 }) 0 optimizedStops,
            totalDistanceKm, estimatedTimeMinutes⟩

/-- The inline estimate
`totalDistance ? Math.round((totalDistance / 40) * 60) + deliveryStops.length * 5
: deliveryStops.length * 15` of `generateRoutesForDay` — note the JS
truthiness test: a `null` and a `0` distance both take the flat estimate. -/
def localEstimatedTime (totalDistance : Option ℚ) (deliveryCount : ℕ) : ℤ :=
  match totalDistance with
  | none => 15 * deliveryCount
  | some d => if d = 0 then 15 * deliveryCount else jsRound (d / 40 * 60) + 5 * deliveryCount

/-- Coordinates of the hardcoded depot fallback. -/
def fallbackWarehouseLat : ℚ := 3923128 / 100000

/-- Coordinates of the hardcoded depot fallback. -/
def fallbackWarehouseLng : ℚ := -7658923 / 100000

/-- Helper `createWarehouseStop` of `generateRoutesForDay` (every `||` fallback of
the source is a JS-truthiness fallback, modelled by `jsOrStr`/`jsOrQ`). -/
def createWarehouseStop (warehouse : Option WorkLocation) (seq : ℕ)
    (isStart : Bool) : RouteStop :=
  { locationId := jsOrStr (warehouse.map (·.id)) "warehouse"
    address := jsOrStr (warehouse.map (·.address)) "3700 Pennington Ave Baltimore, MD 21226"
    customerName := (if isStart then "Start: " else "End: ") ++
      jsOrStr (warehouse.map (·.name)) "Warehouse"
    serviceType := none
    notes := some (if isStart then "Load truck and begin route" else "Return to starting point")
    lat := some (jsOrQ (warehouse.map (·.lat)) fallbackWarehouseLat)
    lng := some (jsOrQ (warehouse.map (·.lng)) fallbackWarehouseLng)
    sequence := seq }

/-- One delivery `RouteStop` built from a location at 0-based position
`index` (the `sequence: index + 2` mapping of both generation paths). -/
def mkDeliveryStop (index : ℕ) (loc : Location) : RouteStop :=
  { locationId := loc.id
    address := loc.address
    customerName := loc.customerName
    serviceType := jsUndefStr loc.serviceType
    notes := jsUndefStr loc.notes
    lat := jsUndefQ loc.lat
    lng := jsUndefQ loc.lng
    sequence := index + 2 }

/-- Assemble the `storage.createRoute` payload fields the engine computes. -/
def mkGeneratedRoute (stops : List RouteStop) (totalDistance : Option ℚ)
    (estimatedTime : Option ℤ) : GeneratedRoute :=
  { stopsJson := stops
    routeLink := generateGoogleMapsUrl stops
    totalDistance := totalDistance
    estimatedTime := estimatedTime
    stopCount := stops.length }

/-- The external optimizer as seen by `generateRoutesForDay`: a function from
the candidate stop list to an optional optimization result
(`optimizeRouteWithGoogle apiKey outcome` for a concrete environment). -/
abbrev Optimizer := List RouteStop → Option GoogleRoutesOptimizationResult

/-- Body of the per-cluster loop of `generateRoutesForDay`
(the all-coordinates path). -/
def processCluster (d4 : ℚ → ℚ → ℚ → ℚ → ℚ) (warehouse : Option WorkLocation)
    (opt : Optimizer) (cluster : List Location) : GeneratedRoute :=
  let ordered := nearestNeighborOrdering d4 cluster
  let deliveryStops := mapSeq mkDeliveryStop 0 ordered
  let warehouseStart := createWarehouseStop warehouse 1 true
  let warehouseEnd := createWarehouseStop warehouse (deliveryStops.length + 2) false
  let fullRoute := warehouseStart :: deliveryStops ++ [warehouseEnd]
  match opt fullRoute with
  | some googleResult =>
    let newDeliveryStops := mapSeq (fun i s => { s with sequence := i + 2 }) 0
      (middleStops googleResult.optimizedStops)
    let stops := createWarehouseStop warehouse 1 true ::
      newDeliveryStops ++ [createWarehouseStop warehouse (newDeliveryStops.length + 2) false]
    mkGeneratedRoute stops (some googleResult.totalDistanceKm)
      (some googleResult.estimatedTimeMinutes)
  | none =>
    let stops := createWarehouseStop warehouse 1 true ::
      deliveryStops ++ [createWarehouseStop warehouse (deliveryStops.length + 2) false]
    let totalDistance := calculateRouteDistance d4 stops
    mkGeneratedRoute stops totalDistance
      (some (localEstimatedTime totalDistance deliveryStops.length))

/-- Body of the per-block loop of `generateRoutesForDay`
(the round-robin fallback path). -/
def processBlock (d4 : ℚ → ℚ → ℚ → ℚ → ℚ) (warehouse : Option WorkLocation)
    (opt : Optimizer) (blockLocations : List Location) : GeneratedRoute :=
  let deliveryStops := mapSeq mkDeliveryStop 0 blockLocations
  let warehouseStart := createWarehouseStop warehouse 1 true
  let warehouseEnd := createWarehouseStop warehouse (deliveryStops.length + 2) false
  let fullRoute := warehouseStart :: deliveryStops ++ [warehouseEnd]
  let stopsHaveCoords :=
    (deliveryStops.all fun s => s.lat.isSome && s.lng.isSome) &&
      (warehouseStart.lat.isSome && warehouseStart.lng.isSome)
  match (if stopsHaveCoords then opt fullRoute else none) with
  | some googleResult =>
    let newDeliveryStops := mapSeq (fun i s => { s with sequence := i + 2 }) 0
      (middleStops googleResult.optimizedStops)
    let stops := createWarehouseStop warehouse 1 true ::
      newDeliveryStops ++ [createWarehouseStop warehouse (newDeliveryStops.length + 2) false]
    mkGeneratedRoute stops (some googleResult.totalDistanceKm)
      (some googleResult.estimatedTimeMinutes)
  | none =>
    let stops := createWarehouseStop warehouse 1 true ::
      deliveryStops ++ [createWarehouseStop warehouse (deliveryStops.length + 2) false]
    if stopsHaveCoords then
      let totalDistance := calculateRouteDistance d4 stops
      mkGeneratedRoute stops totalDistance
        (some (localEstimatedTime totalDistance deliveryStops.length))
    else
      mkGeneratedRoute stops none (some (15 * deliveryStops.length))

/-- The fallback `for (let i = 0; i < driverCount; i++)` slicing loop; `fuel`
counts the remaining driver slots, `start` is `i * stopsPerDriver`. -/
def roundRobinBlocks (locs : List Location) (spd : ℕ) : ℕ → ℕ → List (List Location)
  | 0, _ => []
  | fuel + 1, start =>
    if locs.length ≤ start then []
    else ((locs.drop start).take spd) :: roundRobinBlocks locs spd fuel (start + spd)

/-- Ceiling division `Math.ceil(n / k)` on naturals. (`k = 0` gives `Infinity` in JS; the
slicing loop never runs in that case, so the value is irrelevant — `0`.) -/
def stopsPerDriverOf (n k : ℕ) : ℕ := if k = 0 then 0 else (n + k - 1) / k

/-- Function `generateRoutesForDay` of the source, parametrized by the resolved
starting point `warehouse` and the external-optimizer environment `opt`. -/
def generateRoutesForDay (d4 : ℚ → ℚ → ℚ → ℚ → ℚ)
    (warehouse : Option WorkLocation) (opt : Optimizer)
    (dayLocations : List Location) (driverCount : ℕ) : List GeneratedRoute :=
  let locationsWithCoords := validLocations dayLocations
  if locationsWithCoords.length = dayLocations.length ∧ 0 < dayLocations.length then
    ((kMeansClustering d4 dayLocations driverCount).filter
      fun cluster => cluster.length ≠ 0).map (processCluster d4 warehouse opt)
  else
    (roundRobinBlocks dayLocations
      (stopsPerDriverOf dayLocations.length driverCount) driverCount 0).map
      (processBlock d4 warehouse opt)

/-- A stop stripped of its sequence number: two `RouteStop`s with equal
`stopCore` are the same stop, possibly renumbered. -/
def stopCore (s : RouteStop) : RouteStop := { s with sequence := 0 }

/-- An optimizer result only ever reorders the stops it was given: every
stop strictly between the bookends of the result is (up to renumbering) a
stop strictly between the bookends of the input. `optimizeRouteWithGoogle`
has this property whenever the provider's waypoint indices are in range. -/
def OptimizerSound (opt : Optimizer) : Prop :=
  ∀ s res, opt s = some res →
    ∀ x ∈ middleStops res.optimizedStops, ∃ y ∈ middleStops s, stopCore x = stopCore y

/-- Specification-side definition (§4.3's words need the minimum of the
distances to the candidates): minimum of `f` over a list, `0` on `[]`. -/
def minOver (f : α → ℚ) : List α → ℚ
  | [] => 0
  | [x] => f x
  | x :: y :: t => min (f x) (minOver f (y :: t))

/-- Specification-side definition: the index of the first list element
attaining the minimal `f`-value ("ties on equal distances follow input
order: the first candidate with minimal distance wins"). -/
def firstMinIdx (f : α → ℚ) (l : List α) : ℕ :=
  l.findIdx fun x => decide (f x = minOver f l)

/-- Specification-side definition of §4.3's greedy walk: "repeatedly select,
among not-yet-visited stops, the one nearest to the most-recently-selected
stop; append and mark visited; continue until exhausted". -/
def specGreedyWalk (d4 : ℚ → ℚ → ℚ → ℚ → ℚ) : ℕ → Location → List Location → List Location
  | 0, _, _ => []
  | fuel + 1, current, remaining =>
    match remaining with
    | [] => []
    | _ :: _ =>
      let i := firstMinIdx
        (fun loc => d4 (latOf current) (lngOf current) (latOf loc) (lngOf loc)) remaining
      (remaining.getD i default) ::
        specGreedyWalk d4 fuel (remaining.getD i default) (remaining.eraseIdx i)

/-- Specification-side definition: "start at the first stop in input order",
then walk greedily. -/
def specGreedyOrdering (d4 : ℚ → ℚ → ℚ → ℚ → ℚ) (locations : List Location) : List Location :=
  match locations with
  | [] => []
  | first :: rest => first :: specGreedyWalk d4 rest.length first rest

/-- Specification-side definition of §4.6's round-robin division: block
sizes `ceil(n/k)` over the input in order, the last block possibly smaller,
empty blocks dropped, at most `k` blocks. -/
def specRoundRobinSizes (n k : ℕ) : List ℕ :=
  let spd := stopsPerDriverOf n k
  ((List.range k).map fun i => min spd (n - i * spd)).filter fun m => m ≠ 0

/-! ### Concrete fixtures used by witnesses and counterexamples -/

/-- A concrete everywhere-nonnegative distance function. -/
def wDist : ℚ → ℚ → ℚ → ℚ → ℚ := fun _ _ _ _ => 7

/-- The everywhere-zero distance function: the value the Haversine formula
takes when all points of a run coincide. -/
def zeroDist : ℚ → ℚ → ℚ → ℚ → ℚ := fun _ _ _ _ => 0

/-- Squared-Euclidean surrogate distance on coordinate pairs (used to
exercise the greedy walk on concrete inputs). -/
def sqDist : ℚ → ℚ → ℚ → ℚ → ℚ := fun a b c e => (a - c) ^ 2 + (b - e) ^ 2

/-- The always-unavailable optimizer environment. -/
def noOpt : Optimizer := fun _ => none

/-- A concrete located input stop. -/
def wLoc (i : ℕ) (la ln : ℚ) : Location :=
  { id := toString i, address := "Stop " ++ toString i, customerName := "Customer " ++ toString i,
    serviceType := none, notes := none, lat := some la, lng := some ln }

/-- A concrete coordinate-free input stop. -/
def wLocBare (i : ℕ) : Location :=
  { id := toString i, address := "Stop " ++ toString i, customerName := "Customer " ++ toString i,
    serviceType := none, notes := none, lat := none, lng := none }

/-- A concrete delivery stop with coordinates. -/
def wStop (i : ℕ) (la ln : ℚ) : RouteStop :=
  { locationId := toString i, address := "Stop " ++ toString i,
    customerName := "Customer " ++ toString i, serviceType := none, notes := none,
    lat := some la, lng := some ln, sequence := i }

/-- A concrete delivery stop with no coordinates. -/
def wStopBare (i : ℕ) : RouteStop :=
  { locationId := toString i, address := "Stop " ++ toString i,
    customerName := "Customer " ++ toString i, serviceType := none, notes := none,
    lat := none, lng := none, sequence := i }

/-- The warehouse fallback point as a located input stop. With the real
Haversine distance, every leg of a run whose stops all sit at one point has
length exactly 0, which `zeroDist` reproduces at these inputs. -/
def cexLoc : Location :=
  { id := "L1", address := "3700 Pennington Ave Baltimore, MD 21226",
    customerName := "Depot Customer", serviceType := none, notes := none,
    lat := some fallbackWarehouseLat, lng := some fallbackWarehouseLng }

/-- A provider environment that returns the stops unchanged with total
distance 10 km and estimated duration 99 minutes. -/
def tenKmOpt : Optimizer := fun s => some ⟨s, 10, 99⟩

/-- Five coordinate-free stops — the specification's no-coordinates scenario. -/
def fiveBare : List Location :=
  [wLocBare 1, wLocBare 2, wLocBare 3, wLocBare 4, wLocBare 5]

/-- The single route generated for one located stop (witness fixture). -/
def wRoute : GeneratedRoute :=
  (generateRoutesForDay sqDist none noOpt [wLoc 1 1 1] 1).headD default

/-- The single route generated for one zero-distance stop (witness fixture
for the amended estimated-time claim). -/
def wRouteZero : GeneratedRoute :=
  (generateRoutesForDay zeroDist none noOpt [cexLoc] 1).headD default

/-! ## Distance estimator: lemmas and the estimator contract -/

theorem sumLegs_eq_none_iff (d4 : ℚ → ℚ → ℚ → ℚ → ℚ)
    (legs : List (RouteStop × RouteStop)) :
    sumLegs d4 legs = none ↔ ∃ p ∈ legs, legBad p = true := by
  induction legs with
  | nil => simp [sumLegs]
  | cons p rest ih =>
    by_cases h : legBad p
    · simp [sumLegs, h]
    · simp [sumLegs, h, Option.map_eq_none', ih]

theorem sumLegs_all_known (d4 : ℚ → ℚ → ℚ → ℚ → ℚ)
    (legs : List (RouteStop × RouteStop)) (h : ∀ p ∈ legs, legBad p = false) :
    sumLegs d4 legs = some ((legs.map (legMeters d4)).sum) := by
  induction legs with
  | nil => simp [sumLegs]
  | cons p rest ih =>
    have hp := h p (List.mem_cons_self p rest)
    rw [sumLegs, hp]
    simp [ih fun q hq => h q (List.mem_cons_of_mem p hq), add_comm]

theorem roundKm1_nonneg {m : ℚ} (h : 0 ≤ m) : 0 ≤ roundKm1 m := by
  have h0 : (0 : ℤ) ≤ jsRound (m / 1000 * 10) := by
    rw [jsRound]
    exact Int.le_floor.mpr (by push_cast; linarith)
  unfold roundKm1
  have : (0 : ℚ) ≤ (jsRound (m / 1000 * 10) : ℚ) := by exact_mod_cast h0
  linarith

theorem routeLegs_short {stops : List RouteStop} (h : stops.length < 2) :
    routeLegs stops = [] := by
  match stops with
  | [] => rfl
  | [s] => rfl
  | a :: b :: t => exact absurd h (by simp)

theorem routeLegs_mem {stops : List RouteStop} {p : RouteStop × RouteStop}
    (h : p ∈ routeLegs stops) : p.1 ∈ stops ∧ p.2 ∈ stops := by
  obtain ⟨h1, h2⟩ := List.of_mem_zip (show (p.1, p.2) ∈ stops.zip (stops.drop 1) from h)
  exact ⟨h1, List.mem_of_mem_drop h2⟩

theorem legBad_false_of_known {p : RouteStop × RouteStop}
    (h1 : p.1.lat.isSome ∧ p.1.lng.isSome) (h2 : p.2.lat.isSome ∧ p.2.lng.isSome) :
    legBad p = false := by
  simp only [legBad, Bool.or_eq_false_iff]
  cases hl : p.1.lat <;> cases hg : p.1.lng <;> cases hl2 : p.2.lat <;> cases hg2 : p.2.lng <;>
    simp_all [Option.isNone, Option.isSome]

/-- C2: the distance estimator returns `0` on fewer than two stops, `null`
(never a number) whenever some consecutive pair lacks a coordinate, and on an
all-located stop list the rounded kilometer sum of the consecutive-leg
distances — a nonnegative value whenever the distance function is
nonnegative (as the Haversine distance is). -/
theorem calculateRouteDistance_contract (d4 : ℚ → ℚ → ℚ → ℚ → ℚ)
    (hd4 : ∀ a b c e, 0 ≤ d4 a b c e) (stops : List RouteStop) :
    (stops.length < 2 → calculateRouteDistance d4 stops = some 0) ∧
    ((∃ p ∈ routeLegs stops, legBad p = true) →
      calculateRouteDistance d4 stops = none) ∧
    ((∀ s ∈ stops, s.lat.isSome ∧ s.lng.isSome) →
      calculateRouteDistance d4 stops =
        some (roundKm1 (((routeLegs stops).map (legMeters d4)).sum)) ∧
      ∃ q, calculateRouteDistance d4 stops = some q ∧ 0 ≤ q) := by
  refine ⟨fun h => by simp [calculateRouteDistance, h], ?_, ?_⟩
  · rintro ⟨p, hp, hbad⟩
    have hlen : ¬ stops.length < 2 := by
      intro hlt
      rw [routeLegs_short hlt] at hp
      exact absurd hp (List.not_mem_nil p)
    rw [calculateRouteDistance, if_neg hlen,
      (sumLegs_eq_none_iff d4 (routeLegs stops)).mpr ⟨p, hp, hbad⟩]
    rfl
  · intro hall
    have hgood : ∀ p ∈ routeLegs stops, legBad p = false := by
      intro p hp
      obtain ⟨h1, h2⟩ := routeLegs_mem hp
      exact legBad_false_of_known (hall _ h1) (hall _ h2)
    have hsum : 0 ≤ ((routeLegs stops).map (legMeters d4)).sum := by
      refine List.sum_nonneg ?_
      intro x hx
      obtain ⟨p, _, rfl⟩ := List.mem_map.mp hx
      exact hd4 _ _ _ _
    by_cases hlen : stops.length < 2
    · have hlegs := routeLegs_short hlen
      have hval : calculateRouteDistance d4 stops = some 0 := by
        simp [calculateRouteDistance, hlen]
      refine ⟨?_, 0, hval, le_refl 0⟩
      rw [hval, hlegs]
      norm_num [roundKm1, jsRound]
    · have hval : calculateRouteDistance d4 stops =
          some (roundKm1 (((routeLegs stops).map (legMeters d4)).sum)) := by
        rw [calculateRouteDistance, if_neg hlen, sumLegs_all_known d4 _ hgood]
        rfl
      exact ⟨hval, _, hval, roundKm1_nonneg hsum⟩

theorem calculateRouteDistance_contract_witness :
    (([wStop 1 1 2, wStop 2 3 4].length < 2 →
      calculateRouteDistance wDist [wStop 1 1 2, wStop 2 3 4] = some 0) ∧
    ((∃ p ∈ routeLegs [wStop 1 1 2, wStop 2 3 4], legBad p = true) →
      calculateRouteDistance wDist [wStop 1 1 2, wStop 2 3 4] = none) ∧
    ((∀ s ∈ [wStop 1 1 2, wStop 2 3 4], s.lat.isSome ∧ s.lng.isSome) →
      calculateRouteDistance wDist [wStop 1 1 2, wStop 2 3 4] =
        some (roundKm1 (((routeLegs [wStop 1 1 2, wStop 2 3 4]).map (legMeters wDist)).sum)) ∧
      ∃ q, calculateRouteDistance wDist [wStop 1 1 2, wStop 2 3 4] = some q ∧ 0 ≤ q)) :=
  calculateRouteDistance_contract wDist (fun a b c e => by norm_num [wDist])
    [wStop 1 1 2, wStop 2 3 4]

/-! ## External optimizer adapter -/

theorem processCluster_estimatedTime_isSome (d4 : ℚ → ℚ → ℚ → ℚ → ℚ)
    (warehouse : Option WorkLocation) (opt : Optimizer) (cluster : List Location) :
    ((processCluster d4 warehouse opt cluster).estimatedTime).isSome = true := by
  unfold processCluster
  dsimp only
  split <;> simp [mkGeneratedRoute]

theorem processBlock_estimatedTime_isSome (d4 : ℚ → ℚ → ℚ → ℚ → ℚ)
    (warehouse : Option WorkLocation) (opt : Optimizer) (blockLocations : List Location) :
    ((processBlock d4 warehouse opt blockLocations).estimatedTime).isSome = true := by
  unfold processBlock
  dsimp only
  split
  · simp [mkGeneratedRoute]
  · split <;> simp [mkGeneratedRoute]

theorem generateRoutesForDay_estimatedTime_isSome (d4 : ℚ → ℚ → ℚ → ℚ → ℚ)
    (warehouse : Option WorkLocation) (opt : Optimizer) (locs : List Location) (k : ℕ) :
    ∀ r ∈ generateRoutesForDay d4 warehouse opt locs k, r.estimatedTime.isSome = true := by
  intro r hr
  unfold generateRoutesForDay at hr
  dsimp only at hr
  split at hr
  · obtain ⟨cl, _, rfl⟩ := List.mem_map.mp hr
    exact processCluster_estimatedTime_isSome d4 warehouse opt cl
  · obtain ⟨b, _, rfl⟩ := List.mem_map.mp hr
    exact processBlock_estimatedTime_isSome d4 warehouse opt b

/-- C4: the external optimizer adapter is a total function into
`Option`: it never throws, and it answers `none` (unavailable) when
credentials are missing, when there are fewer than two stops, when any stop
lacks a coordinate, on a thrown network/parse error, on a non-success
provider response, on a response with no `routes` field, and on an empty
route list; and with an unavailable optimizer, route generation still
produces an estimated time for every route from the local heuristic. -/
theorem optimizeRouteWithGoogle_contract (apiKey : Option String)
    (outcome : FetchOutcome) (stops : List RouteStop) :
    (optimizeRouteWithGoogle apiKey outcome stops = none ∨
      ∃ res, optimizeRouteWithGoogle apiKey outcome stops = some res) ∧
    (apiKey = none → optimizeRouteWithGoogle apiKey outcome stops = none) ∧
    (stops.length < 2 → optimizeRouteWithGoogle apiKey outcome stops = none) ∧
    ((∃ s ∈ stops, s.lat = none ∨ s.lng = none) →
      optimizeRouteWithGoogle apiKey outcome stops = none) ∧
    (outcome = .throwOut → optimizeRouteWithGoogle apiKey outcome stops = none) ∧
    (∀ routes?, outcome = .reply false routes? →
      optimizeRouteWithGoogle apiKey outcome stops = none) ∧
    (∀ ok, outcome = .reply ok none →
      optimizeRouteWithGoogle apiKey outcome stops = none) ∧
    (∀ ok, outcome = .reply ok (some []) →
      optimizeRouteWithGoogle apiKey outcome stops = none) ∧
    (∀ d4 warehouse locs k, ∀ r ∈ generateRoutesForDay d4 warehouse noOpt locs k,
      r.estimatedTime.isSome = true) := by
  refine ⟨?_, ?_, ?_, ?_, ?_, ?_, ?_, ?_, ?_⟩
  · cases h : optimizeRouteWithGoogle apiKey outcome stops
    · exact Or.inl rfl
    · exact Or.inr ⟨_, rfl⟩
  · rintro rfl
    simp [optimizeRouteWithGoogle, jsTruthyStr]
  · intro h
    simp only [optimizeRouteWithGoogle]
    by_cases h1 : jsTruthyStr apiKey <;> simp [h1, h]
  · rintro ⟨s, hs, hbad⟩
    have hne : (stops.filter fun s => s.lat.isSome && s.lng.isSome).length ≠ stops.length := by
      intro heq
      have := List.filter_length_eq_length.mp heq s hs
      rcases hbad with h | h <;> simp [h] at this
    simp only [optimizeRouteWithGoogle]
    by_cases h1 : jsTruthyStr apiKey <;> by_cases h2 : stops.length < 2 <;>
      simp [h1, h2, hne]
  · rintro rfl
    simp only [optimizeRouteWithGoogle]
    by_cases h1 : jsTruthyStr apiKey <;> by_cases h2 : stops.length < 2 <;>
      by_cases h3 : (stops.filter fun s => s.lat.isSome && s.lng.isSome).length = stops.length <;>
      simp [h1, h2, h3]
  · rintro routes? rfl
    simp only [optimizeRouteWithGoogle]
    by_cases h1 : jsTruthyStr apiKey <;> by_cases h2 : stops.length < 2 <;>
      by_cases h3 : (stops.filter fun s => s.lat.isSome && s.lng.isSome).length = stops.length <;>
      simp [h1, h2, h3]
  · rintro ok rfl
    simp only [optimizeRouteWithGoogle]
    by_cases h1 : jsTruthyStr apiKey <;> by_cases h2 : stops.length < 2 <;>
      by_cases h3 : (stops.filter fun s => s.lat.isSome && s.lng.isSome).length = stops.length <;>
      cases ok <;> simp [h1, h2, h3]
  · rintro ok rfl
    simp only [optimizeRouteWithGoogle]
    by_cases h1 : jsTruthyStr apiKey <;> by_cases h2 : stops.length < 2 <;>
      by_cases h3 : (stops.filter fun s => s.lat.isSome && s.lng.isSome).length = stops.length <;>
      cases ok <;> simp [h1, h2, h3]
  · intro d4 warehouse locs k
    exact generateRoutesForDay_estimatedTime_isSome d4 warehouse noOpt locs k

theorem optimizeRouteWithGoogle_contract_witness :
    optimizeRouteWithGoogle (some "key") FetchOutcome.throwOut [wStop 1 1 2, wStop 2 3 4] = none :=
  (optimizeRouteWithGoogle_contract (some "key") FetchOutcome.throwOut
    [wStop 1 1 2, wStop 2 3 4]).2.2.2.2.1 rfl

/-! ## The strict-less scan computes the first index attaining the minimum -/

theorem minOver_cons (f : α → ℚ) (x y : α) (t : List α) :
    minOver f (x :: y :: t) = min (f x) (minOver f (y :: t)) := rfl

theorem minOver_le (f : α → ℚ) : ∀ (l : List α), ∀ x ∈ l, minOver f l ≤ f x := by
  intro l
  induction l with
  | nil => intro x hx; exact absurd hx (List.not_mem_nil x)
  | cons a t ih =>
    intro x hx
    cases t with
    | nil =>
      rcases List.mem_singleton.mp hx with rfl
      exact le_refl _
    | cons b t2 =>
      rw [minOver_cons]
      rcases List.mem_cons.mp hx with rfl | hx2
      · exact min_le_left _ _
      · exact le_trans (min_le_right _ _) (ih x hx2)

theorem minOver_attained (f : α → ℚ) :
    ∀ (l : List α), l ≠ [] → ∃ x ∈ l, f x = minOver f l := by
  intro l
  induction l with
  | nil => intro h; exact absurd rfl h
  | cons a t ih =>
    intro _
    cases t with
    | nil => exact ⟨a, List.mem_singleton_self a, rfl⟩
    | cons b t2 =>
      rw [minOver_cons]
      rcases le_total (f a) (minOver f (b :: t2)) with hle | hle
      · exact ⟨a, List.mem_cons_self a _, (min_eq_left hle).symm⟩
      · obtain ⟨z, hz, he⟩ := ih (List.cons_ne_nil b t2)
        exact ⟨z, List.mem_cons_of_mem a hz, he.trans (min_eq_right hle).symm⟩

theorem scanMin_some_char (f : α → ℚ) :
    ∀ (l : List α) (i best : ℕ) (bd : ℚ), l ≠ [] →
      scanMin f l i best (some bd) =
        if bd ≤ minOver f l then best
        else i + l.findIdx fun x => decide (f x = minOver f l) := by
  intro l
  induction l with
  | nil => intro i best bd h; exact absurd rfl h
  | cons x t ih =>
    intro i best bd _
    rw [scanMin]
    cases t with
    | nil =>
      by_cases hx : f x < bd
      · rw [if_pos hx]
        have hnle : ¬ bd ≤ f x := not_le.mpr hx
        simp [scanMin, minOver, hnle, List.findIdx_cons]
      · rw [if_neg hx]
        have hle : bd ≤ f x := le_of_not_lt hx
        simp [scanMin, minOver, hle]
    | cons y t2 =>
      have hne : (y :: t2 : List α) ≠ [] := List.cons_ne_nil y t2
      set mt := minOver f (y :: t2) with hmt
      by_cases hx : f x < bd
      · rw [if_pos hx, ih _ _ _ hne]
        have hmin : ¬ bd ≤ minOver f (x :: y :: t2) := by
          rw [minOver_cons]
          push_neg
          exact lt_of_le_of_lt (min_le_left _ _) hx
        rw [if_neg hmin]
        by_cases hle : f x ≤ mt
        · have hmeq : minOver f (x :: y :: t2) = f x := by
            rw [minOver_cons]; exact min_eq_left hle
          rw [if_pos hle, hmeq, List.findIdx_cons]
          simp
        · have hlt : mt < f x := lt_of_not_le hle
          have hmeq : minOver f (x :: y :: t2) = mt := by
            rw [minOver_cons]; exact min_eq_right (le_of_lt hlt)
          rw [if_neg hle, hmeq]
          conv_rhs => rw [List.findIdx_cons]
          have hpx : decide (f x = mt) = false := by
            simp [ne_of_gt hlt]
          rw [hpx]
          simp only [cond_false]
          omega
      · rw [if_neg hx, ih _ _ _ hne]
        have hbx : bd ≤ f x := le_of_not_lt hx
        by_cases hbm : bd ≤ mt
        · have hble : bd ≤ minOver f (x :: y :: t2) := by
            rw [minOver_cons]; exact le_min hbx hbm
          rw [if_pos hbm, if_pos hble]
        · have hlt : mt < bd := lt_of_not_le hbm
          have hmeq : minOver f (x :: y :: t2) = mt := by
            rw [minOver_cons]; exact min_eq_right (le_of_lt (lt_of_lt_of_le hlt hbx))
          have hnle : ¬ bd ≤ minOver f (x :: y :: t2) := by rw [hmeq]; exact hbm
          rw [if_neg hbm, if_neg hnle, hmeq]
          conv_rhs => rw [List.findIdx_cons]
          have hpx : decide (f x = mt) = false := by
            simp [ne_of_gt (lt_of_lt_of_le hlt hbx)]
          rw [hpx]
          simp only [cond_false]
          omega

theorem argminScan_eq_firstMinIdx (f : α → ℚ) (l : List α) :
    argminScan f l = firstMinIdx f l := by
  cases l with
  | nil => rfl
  | cons x t =>
    rw [argminScan, scanMin, firstMinIdx]
    cases t with
    | nil => simp [scanMin, minOver, List.findIdx_cons]
    | cons y t2 =>
      rw [scanMin_some_char f (y :: t2) 1 0 (f x) (List.cons_ne_nil y t2)]
      set mt := minOver f (y :: t2) with hmt
      by_cases hle : f x ≤ mt
      · have hmeq : minOver f (x :: y :: t2) = f x := by
          rw [minOver_cons]; exact min_eq_left hle
        rw [if_pos hle, hmeq, List.findIdx_cons]
        simp
      · have hlt : mt < f x := lt_of_not_le hle
        have hmeq : minOver f (x :: y :: t2) = mt := by
          rw [minOver_cons]; exact min_eq_right (le_of_lt hlt)
        rw [if_neg hle, hmeq]
        conv_rhs => rw [List.findIdx_cons]
        have hpx : decide (f x = mt) = false := by simp [ne_of_gt hlt]
        rw [hpx]
        simp only [cond_false]
        omega

theorem firstMinIdx_lt (f : α → ℚ) (l : List α) (h : l ≠ []) :
    firstMinIdx f l < l.length := by
  obtain ⟨x, hx, he⟩ := minOver_attained f l h
  exact List.findIdx_lt_length_of_exists ⟨x, hx, by simp [he]⟩

theorem argminScan_lt (f : α → ℚ) (l : List α) (h : l ≠ []) :
    argminScan f l < l.length := by
  rw [argminScan_eq_firstMinIdx]
  exact firstMinIdx_lt f l h

/-! ## Nearest-neighbor ordering -/

theorem getD_cons_eraseIdx_perm :
    ∀ (l : List α) (i : ℕ) (d : α), i < l.length →
      (l.getD i d :: l.eraseIdx i).Perm l := by
  intro l
  induction l with
  | nil => intro i d h; simp at h
  | cons a t ih =>
    intro i d h
    cases i with
    | zero => simp
    | succ j =>
      have hj : j < t.length := by simpa using h
      have step : (t.getD j d :: a :: t.eraseIdx j).Perm (a :: t.getD j d :: t.eraseIdx j) :=
        List.Perm.swap a (t.getD j d) (t.eraseIdx j)
      simpa using step.trans ((ih j d hj).cons a)

theorem nnWalk_perm (d4 : ℚ → ℚ → ℚ → ℚ → ℚ) :
    ∀ (fuel : ℕ) (cur : Location) (remaining : List Location),
      fuel = remaining.length → (nnWalk d4 fuel cur remaining).Perm remaining := by
  intro fuel
  induction fuel with
  | zero =>
    intro cur remaining h
    cases remaining with
    | nil => simp [nnWalk]
    | cons a t => simp at h
  | succ n ih =>
    intro cur remaining h
    cases remaining with
    | nil => simp at h
    | cons a t =>
      rw [nnWalk]
      have hne : (a :: t : List Location) ≠ [] := List.cons_ne_nil a t
      have hlt : argminScan
          (fun loc => d4 (latOf cur) (lngOf cur) (latOf loc) (lngOf loc)) (a :: t) <
          (a :: t).length := argminScan_lt _ _ hne
      have hlen : n = ((a :: t).eraseIdx (argminScan
          (fun loc => d4 (latOf cur) (lngOf cur) (latOf loc) (lngOf loc)) (a :: t))).length := by
        rw [List.length_eraseIdx_of_lt hlt]
        simp only [List.length_cons] at h ⊢
        omega
      exact ((ih _ _ hlen).cons _).trans (getD_cons_eraseIdx_perm _ _ default hlt)

theorem nnWalk_eq_specGreedyWalk (d4 : ℚ → ℚ → ℚ → ℚ → ℚ) :
    ∀ (fuel : ℕ) (cur : Location) (remaining : List Location),
      nnWalk d4 fuel cur remaining = specGreedyWalk d4 fuel cur remaining := by
  intro fuel
  induction fuel with
  | zero => intro cur remaining; rfl
  | succ n ih =>
    intro cur remaining
    cases remaining with
    | nil => rfl
    | cons a t =>
      rw [nnWalk, specGreedyWalk]
      rw [argminScan_eq_firstMinIdx]
      rw [ih]

theorem nearestNeighborOrdering_perm (d4 : ℚ → ℚ → ℚ → ℚ → ℚ)
    (locations : List Location) :
    (nearestNeighborOrdering d4 locations).Perm locations := by
  unfold nearestNeighborOrdering
  by_cases h : locations.length ≤ 1
  · rw [if_pos h]
  · rw [if_neg h]
    cases locations with
    | nil => exact List.Perm.refl []
    | cons first rest => exact (nnWalk_perm d4 rest.length first rest rfl).cons first

/-- C7: `nearestNeighborOrdering` returns short lists unchanged and
otherwise a permutation of its input equal to the specification's greedy
nearest-neighbor walk — start at the first input stop, then repeatedly take
the not-yet-visited stop at minimal distance from the previous one, with
ties resolved to the earliest remaining candidate in input order. -/
theorem nearestNeighborOrdering_contract (d4 : ℚ → ℚ → ℚ → ℚ → ℚ)
    (locations : List Location) :
    (locations.length ≤ 1 → nearestNeighborOrdering d4 locations = locations) ∧
    (nearestNeighborOrdering d4 locations).Perm locations ∧
    nearestNeighborOrdering d4 locations = specGreedyOrdering d4 locations ∧
    (locations ≠ [] → (nearestNeighborOrdering d4 locations).head? = locations.head?) := by
  refine ⟨fun h => by unfold nearestNeighborOrdering; rw [if_pos h],
    nearestNeighborOrdering_perm d4 locations, ?_, ?_⟩
  · unfold nearestNeighborOrdering
    by_cases h : locations.length ≤ 1
    · rw [if_pos h]
      cases locations with
      | nil => rfl
      | cons first rest =>
        cases rest with
        | nil => rfl
        | cons b t => simp at h
    · rw [if_neg h]
      cases locations with
      | nil => rfl
      | cons first rest =>
        show first :: nnWalk d4 rest.length first rest =
          first :: specGreedyWalk d4 rest.length first rest
        rw [nnWalk_eq_specGreedyWalk]
  · intro hne
    unfold nearestNeighborOrdering
    by_cases h : locations.length ≤ 1
    · rw [if_pos h]
    · rw [if_neg h]
      cases locations with
      | nil => exact absurd rfl hne
      | cons first rest => rfl

theorem nearestNeighborOrdering_contract_witness :
    (([wLoc 1 0 0, wLoc 2 5 0, wLoc 3 1 0].length ≤ 1 →
      nearestNeighborOrdering sqDist [wLoc 1 0 0, wLoc 2 5 0, wLoc 3 1 0] =
        [wLoc 1 0 0, wLoc 2 5 0, wLoc 3 1 0]) ∧
    (nearestNeighborOrdering sqDist [wLoc 1 0 0, wLoc 2 5 0, wLoc 3 1 0]).Perm
      [wLoc 1 0 0, wLoc 2 5 0, wLoc 3 1 0] ∧
    nearestNeighborOrdering sqDist [wLoc 1 0 0, wLoc 2 5 0, wLoc 3 1 0] =
      specGreedyOrdering sqDist [wLoc 1 0 0, wLoc 2 5 0, wLoc 3 1 0] ∧
    (([wLoc 1 0 0, wLoc 2 5 0, wLoc 3 1 0] : List Location) ≠ [] →
      (nearestNeighborOrdering sqDist [wLoc 1 0 0, wLoc 2 5 0, wLoc 3 1 0]).head? =
        ([wLoc 1 0 0, wLoc 2 5 0, wLoc 3 1 0] : List Location).head?)) :=
  nearestNeighborOrdering_contract sqDist [wLoc 1 0 0, wLoc 2 5 0, wLoc 3 1 0]

/-! ## K-means clustering: loop shape, partition, centroid update -/

theorem closestCentroid_lt (d4 : ℚ → ℚ → ℚ → ℚ → ℚ) (loc : Location)
    (cs : List Centroid) (h : cs ≠ []) : closestCentroid d4 loc cs < cs.length :=
  argminScan_lt _ cs h

theorem updateCentroids_length (valid : List Location) (k : ℕ) (asg : List ℕ)
    (cs : List Centroid) : (updateCentroids valid k asg cs).length = k := by
  simp [updateCentroids]

theorem kmeansLoop_form (d4 : ℚ → ℚ → ℚ → ℚ → ℚ) (valid : List Location) (k : ℕ) :
    ∀ (fuel : ℕ) (cs : List Centroid) (asg : List ℕ), 1 ≤ fuel → cs.length = k →
      ∃ cs2 : List Centroid, cs2.length = k ∧
        kmeansLoop d4 valid k fuel cs asg =
          valid.map fun loc => closestCentroid d4 loc cs2 := by
  intro fuel
  induction fuel with
  | zero => intro cs asg h hlen; exact absurd h (by omega)
  | succ f ih =>
    intro cs asg _ hlen
    rw [kmeansLoop]
    by_cases hconv : (valid.map fun loc => closestCentroid d4 loc cs) = asg
    · rw [if_pos hconv]
      exact ⟨cs, hlen, rfl⟩
    · rw [if_neg hconv]
      cases f with
      | zero => exact ⟨cs, hlen, rfl⟩
      | succ g =>
        exact ih _ _ (by omega) (updateCentroids_length valid k _ cs)

theorem flatten_insert_perm (g : ℕ → List β) (p : β) :
    ∀ (l : List ℕ) (a : ℕ), a ∈ l → l.Nodup →
      ((l.map fun c => if a = c then p :: g c else g c).flatten).Perm
        (p :: (l.map g).flatten) := by
  intro l
  induction l with
  | nil => intro a h _; exact absurd h (List.not_mem_nil a)
  | cons c t ih =>
    intro a hmem hnd
    obtain ⟨hcnotin, hndt⟩ := List.nodup_cons.mp hnd
    by_cases hac : a = c
    · subst hac
      have htail : (t.map fun c2 => if a = c2 then p :: g c2 else g c2) = t.map g := by
        apply List.map_congr_left
        intro x hx
        rw [if_neg]
        intro h2
        exact hcnotin (h2 ▸ hx)
      rw [List.map_cons, htail, if_pos rfl]
      simp
    · have hmemt : a ∈ t := by
        rcases List.mem_cons.mp hmem with h | h
        · exact absurd h hac
        · exact h
      rw [List.map_cons, List.map_cons, List.flatten_cons, List.flatten_cons, if_neg hac]
      exact ((ih a hmemt hndt).append_left (g c)).trans List.perm_middle

theorem pairsPartition_perm (k : ℕ) :
    ∀ (pairs : List (Location × ℕ)), (∀ p ∈ pairs, p.2 < k) →
      (((List.range k).map fun c =>
        ((pairs.filter fun p => p.2 = c).map Prod.fst)).flatten).Perm
        (pairs.map Prod.fst) := by
  intro pairs
  induction pairs with
  | nil => intro _; simp
  | cons pr rest ih =>
    intro hb
    have hmap : ((List.range k).map fun c =>
        (((pr :: rest).filter fun p => p.2 = c).map Prod.fst)) =
        ((List.range k).map fun c =>
          if pr.2 = c then pr.1 :: ((rest.filter fun p => p.2 = c).map Prod.fst)
          else ((rest.filter fun p => p.2 = c).map Prod.fst)) := by
      apply List.map_congr_left
      intro c _
      by_cases h : pr.2 = c
      · simp [List.filter_cons, h]
      · simp [List.filter_cons, h]
    rw [hmap, List.map_cons]
    refine (flatten_insert_perm (fun c => (rest.filter fun p => p.2 = c).map Prod.fst)
      pr.1 (List.range k) pr.2 ?_ (List.nodup_range k)).trans ?_
    · exact List.mem_range.mpr (hb pr (List.mem_cons_self _ _))
    · exact (ih fun p hp => hb p (List.mem_cons_of_mem _ hp)).cons pr.1

theorem flatten_filter_pos_length (L : List (List β)) :
    (L.filter fun l => 0 < l.length).flatten = L.flatten := by
  induction L with
  | nil => rfl
  | cons c t ih =>
    cases c with
    | nil => simpa using ih
    | cons x xs => simp [List.filter_cons, ih]

theorem flatten_map_singleton (l : List β) :
    (l.map fun x => [x]).flatten = l := by
  induction l with
  | nil => rfl
  | cons a t ih => simp [ih]

theorem groupClusters_facts (valid : List Location) (k : ℕ) (asg : List ℕ)
    (hlen : asg.length = valid.length) (hb : ∀ a ∈ asg, a < k) :
    (((((List.range k).map fun c =>
        ((valid.zip asg).filter fun p => p.2 = c).map Prod.fst).filter
      fun cluster => 0 < cluster.length).flatten).Perm valid) ∧
    (∀ cl ∈ ((List.range k).map fun c =>
        ((valid.zip asg).filter fun p => p.2 = c).map Prod.fst).filter
      fun cluster => 0 < cluster.length, cl ≠ []) ∧
    ((((List.range k).map fun c =>
        ((valid.zip asg).filter fun p => p.2 = c).map Prod.fst).filter
      fun cluster => 0 < cluster.length).length ≤ k) := by
  have hpb : ∀ p ∈ valid.zip asg, p.2 < k := fun p hp => hb p.2 (List.of_mem_zip hp).2
  refine ⟨?_, ?_, ?_⟩
  · rw [flatten_filter_pos_length]
    refine (pairsPartition_perm k (valid.zip asg) hpb).trans ?_
    rw [List.map_fst_zip valid asg (le_of_eq hlen.symm)]
  · intro cl hcl
    have := (List.mem_filter.mp hcl).2
    intro hnil
    rw [hnil] at this
    simp at this
  · calc (((List.range k).map fun c =>
        ((valid.zip asg).filter fun p => p.2 = c).map Prod.fst).filter
      fun cluster => 0 < cluster.length).length
        ≤ ((List.range k).map fun c =>
            ((valid.zip asg).filter fun p => p.2 = c).map Prod.fst).length :=
          List.length_filter_le _ _
      _ = k := by rw [List.length_map, List.length_range]

theorem kMeansClustering_partition_aux (d4 : ℚ → ℚ → ℚ → ℚ → ℚ)
    (locations : List Location) (k : ℕ) (hk : 1 ≤ k) :
    ((kMeansClustering d4 locations k).flatten).Perm (validLocations locations) ∧
    (∀ cl ∈ kMeansClustering d4 locations k, cl ≠ []) ∧
    (kMeansClustering d4 locations k).length ≤ k := by
  unfold kMeansClustering
  dsimp only
  by_cases h0 : (validLocations locations).length = 0 ∨ k = 0
  · rw [if_pos h0]
    rcases h0 with h0 | h0
    · have hv : validLocations locations = [] := List.length_eq_zero.mp h0
      refine ⟨by rw [hv]; exact List.Perm.refl _, by simp, by simp⟩
    · omega
  · rw [if_neg h0]
    by_cases h1 : (validLocations locations).length ≤ k
    · rw [if_pos h1]
      refine ⟨?_, ?_, ?_⟩
      · rw [flatten_map_singleton]
      · intro cl hcl
        obtain ⟨loc, _, rfl⟩ := List.mem_map.mp hcl
        simp
      · rw [List.length_map]
        exact h1
    · rw [if_neg h1]
      obtain ⟨cs2, hcs2len, hasg⟩ := kmeansLoop_form d4 (validLocations locations) k 20
        (initialCentroids (validLocations locations) k) (List.replicate (validLocations locations).length 0)
        (by omega) (by simp [initialCentroids])
      rw [hasg]
      have hcs2ne : cs2 ≠ [] := by
        intro h
        rw [h] at hcs2len
        simp at hcs2len
        omega
      refine groupClusters_facts (validLocations locations) k _ (List.length_map _ _) ?_
      intro a ha
      obtain ⟨loc, _, rfl⟩ := List.mem_map.mp ha
      have := closestCentroid_lt d4 loc cs2 hcs2ne
      omega

/-- C3: for every input and every `k ≥ 1`, the clusters returned by
`kMeansClustering` partition the located input stops — their concatenation
is a permutation of the located-stop list (each located stop in exactly one
cluster, no duplicates, no omissions), every returned cluster is non-empty,
and at most `k` clusters are returned. -/
theorem kMeansClustering_partition (d4 : ℚ → ℚ → ℚ → ℚ → ℚ)
    (locations : List Location) (k : ℕ) (hk : 1 ≤ k) :
    ((kMeansClustering d4 locations k).flatten).Perm (validLocations locations) ∧
    (∀ cl ∈ kMeansClustering d4 locations k, cl ≠ []) ∧
    (kMeansClustering d4 locations k).length ≤ k :=
  kMeansClustering_partition_aux d4 locations k hk

theorem kMeansClustering_partition_witness :
    (((kMeansClustering sqDist [wLoc 1 1 1, wLoc 2 9 9, wLoc 3 1 2] 2).flatten).Perm
      (validLocations [wLoc 1 1 1, wLoc 2 9 9, wLoc 3 1 2]) ∧
    (∀ cl ∈ kMeansClustering sqDist [wLoc 1 1 1, wLoc 2 9 9, wLoc 3 1 2] 2, cl ≠ []) ∧
    (kMeansClustering sqDist [wLoc 1 1 1, wLoc 2 9 9, wLoc 3 1 2] 2).length ≤ 2) :=
  kMeansClustering_partition sqDist [wLoc 1 1 1, wLoc 2 9 9, wLoc 3 1 2] 2 (by omega)

/-- C6: when the target count `k` is at least the number of located stops,
the clusterer skips refinement and returns one singleton cluster per
located stop; in particular, generating for 2 located stops with `k = 5`
produces exactly 2 routes, not 5, for any distance function, warehouse and
optimizer environment. -/
theorem kMeansClustering_k_ge_n (d4 : ℚ → ℚ → ℚ → ℚ → ℚ)
    (locations : List Location) (k : ℕ)
    (hk : (validLocations locations).length ≤ k) :
    kMeansClustering d4 locations k =
      (validLocations locations).map (fun loc => [loc]) ∧
    (∀ (d4w : ℚ → ℚ → ℚ → ℚ → ℚ) (warehouse : Option WorkLocation) (opt : Optimizer),
      (generateRoutesForDay d4w warehouse opt [wLoc 1 1 1, wLoc 2 2 2] 5).length = 2) := by
  constructor
  · unfold kMeansClustering
    dsimp only
    by_cases h0 : (validLocations locations).length = 0 ∨ k = 0
    · rw [if_pos h0]
      have hv : validLocations locations = [] := by
        rcases h0 with h0 | h0
        · exact List.length_eq_zero.mp h0
        · exact List.length_eq_zero.mp (by omega)
      rw [hv]
      rfl
    · rw [if_neg h0, if_pos hk]
  · intro d4w warehouse opt
    show (List.map (processCluster d4w warehouse opt) _).length = 2
    rw [List.length_map]
    rfl

theorem kMeansClustering_k_ge_n_witness :
    (kMeansClustering sqDist [wLoc 1 1 1, wLoc 2 9 9] 5 =
      (validLocations [wLoc 1 1 1, wLoc 2 9 9]).map (fun loc => [loc]) ∧
    (∀ (d4w : ℚ → ℚ → ℚ → ℚ → ℚ) (warehouse : Option WorkLocation) (opt : Optimizer),
      (generateRoutesForDay d4w warehouse opt [wLoc 1 1 1, wLoc 2 2 2] 5).length = 2)) :=
  kMeansClustering_k_ge_n sqDist [wLoc 1 1 1, wLoc 2 9 9] 5 (by decide)

/-! ## Centroid update: accumulation and the memberless-centroid rule -/

theorem getD_set_self (l : List α) (i : ℕ) (a d : α) (h : i < l.length) :
    (l.set i a).getD i d = a := by
  simp [List.getD, List.getElem?_set_self', h]

theorem getD_set_ne (l : List α) (i j : ℕ) (a d : α) (h : i ≠ j) :
    (l.set i a).getD j d = l.getD j d := by
  simp [List.getD, List.getElem?_set_ne h]

theorem getD_replicate (k c : ℕ) (z : α) : (List.replicate k z).getD c z = z := by
  rcases lt_or_ge c k with h | h
  · simp [List.getD, List.getElem?_replicate, h]
  · have hle : (List.replicate k z).length ≤ c := by simpa using h
    simp [List.getD, List.getElem?_eq_none hle]

theorem range_map_getD (f : ℕ → α) (k c : ℕ) (d : α) (h : c < k) :
    ((List.range k).map f).getD c d = f c := by
  simp [List.getD, List.getElem?_map, List.getElem?_range h]

theorem addToSums_length (sums : List (ℚ × ℚ × ℕ)) (loc : Location) (c : ℕ) :
    (addToSums sums loc c).length = sums.length := by
  simp [addToSums]

theorem sumMembers_getD :
    ∀ (pairs : List (Location × ℕ)) (acc : List (ℚ × ℚ × ℕ)) (c : ℕ), c < acc.length →
      (sumMembers pairs acc).getD c (0, 0, 0) =
        ((acc.getD c (0, 0, 0)).1 +
            (((pairs.filter fun p => p.2 = c).map Prod.fst).map latOf).sum,
          (acc.getD c (0, 0, 0)).2.1 +
            (((pairs.filter fun p => p.2 = c).map Prod.fst).map lngOf).sum,
          (acc.getD c (0, 0, 0)).2.2 + (pairs.filter fun p => p.2 = c).length) := by
  intro pairs
  induction pairs with
  | nil => intro acc c _; simp [sumMembers]
  | cons pr rest ih =>
    intro acc c hc
    obtain ⟨loc, a⟩ := pr
    rw [sumMembers]
    rw [ih (addToSums acc loc a) c (by rw [addToSums_length]; exact hc)]
    by_cases hca : a = c
    · subst hca
      have hset : (addToSums acc loc a).getD a (0, 0, 0) =
          ((acc.getD a (0, 0, 0)).1 + latOf loc, (acc.getD a (0, 0, 0)).2.1 + lngOf loc,
            (acc.getD a (0, 0, 0)).2.2 + 1) := by
        unfold addToSums
        exact getD_set_self acc a _ _ hc
      have hfc : (((loc, a) :: rest).filter fun p => p.2 = a) =
          (loc, a) :: (rest.filter fun p => p.2 = a) := by
        simp [List.filter_cons]
      rw [hset, hfc]
      simp only [List.map_cons, List.sum_cons, List.length_cons, Prod.ext_iff]
      refine ⟨by ring, by ring, by omega⟩
    · have hset : (addToSums acc loc a).getD c (0, 0, 0) = acc.getD c (0, 0, 0) := by
        unfold addToSums
        exact getD_set_ne acc a c _ _ hca
      rw [hset, List.filter_cons]
      simp [hca]

/-- C10: one refinement iteration's centroid update keeps the previous
coordinates of every centroid whose cluster has no members after
reassignment, recomputes every centroid with members as the arithmetic mean
of its members, preserves the number of centroids, and consequently the
refinement loop only ever evaluates assignments against a full-length
centroid list, every entry of which is a defined rational coordinate pair. -/
theorem updateCentroids_contract (d4 : ℚ → ℚ → ℚ → ℚ → ℚ) (valid : List Location)
    (k : ℕ) (asg : List ℕ) (cs : List Centroid) (hlen : cs.length = k)
    (c : ℕ) (hc : c < k) :
    (updateCentroids valid k asg cs).length = k ∧
    (((valid.zip asg).filter fun p => p.2 = c) = [] →
      (updateCentroids valid k asg cs).getD c ⟨0, 0⟩ = cs.getD c ⟨0, 0⟩) ∧
    (((valid.zip asg).filter fun p => p.2 = c) ≠ [] →
      (updateCentroids valid k asg cs).getD c ⟨0, 0⟩ =
        ⟨((((valid.zip asg).filter fun p => p.2 = c).map Prod.fst).map latOf).sum /
            (((valid.zip asg).filter fun p => p.2 = c).map Prod.fst).length,
          ((((valid.zip asg).filter fun p => p.2 = c).map Prod.fst).map lngOf).sum /
            (((valid.zip asg).filter fun p => p.2 = c).map Prod.fst).length⟩) ∧
    (∀ (fuel : ℕ) (cs0 : List Centroid) (asg0 : List ℕ), 1 ≤ fuel → cs0.length = k →
      ∃ cs2, cs2.length = k ∧ kmeansLoop d4 valid k fuel cs0 asg0 =
        valid.map fun loc => closestCentroid d4 loc cs2) := by
  have hsums : (sumMembers (valid.zip asg) (List.replicate k (0, 0, 0))).getD c (0, 0, 0) =
      (((((valid.zip asg).filter fun p => p.2 = c).map Prod.fst).map latOf).sum,
        ((((valid.zip asg).filter fun p => p.2 = c).map Prod.fst).map lngOf).sum,
        ((valid.zip asg).filter fun p => p.2 = c).length) := by
    rw [sumMembers_getD (valid.zip asg) (List.replicate k (0, 0, 0)) c (by simpa using hc),
      getD_replicate]
    norm_num
  have hget : (updateCentroids valid k asg cs).getD c ⟨0, 0⟩ =
      (let s := (sumMembers (valid.zip asg) (List.replicate k (0, 0, 0))).getD c (0, 0, 0)
       if 0 < s.2.2 then (⟨s.1 / (s.2.2 : ℚ), s.2.1 / (s.2.2 : ℚ)⟩ : Centroid)
       else cs.getD c ⟨0, 0⟩) := by
    unfold updateCentroids
    exact range_map_getD _ k c _ hc
  refine ⟨updateCentroids_length valid k asg cs, ?_, ?_, ?_⟩
  · intro hempty
    rw [hget]
    dsimp only
    rw [hsums, hempty]
    simp
  · intro hne
    rw [hget]
    dsimp only
    rw [hsums]
    have hpos : 0 < ((valid.zip asg).filter fun p => p.2 = c).length :=
      List.length_pos.mpr hne
    rw [if_pos hpos]
    simp [List.length_map]
  · intro fuel cs0 asg0 hfuel hlen0
    exact kmeansLoop_form d4 valid k fuel cs0 asg0 hfuel hlen0

theorem updateCentroids_contract_witness :
    ((updateCentroids [wLoc 1 1 1, wLoc 2 9 9] 2 [0, 0]
        [⟨1, 1⟩, ⟨9, 9⟩]).length = 2 ∧
    ((([wLoc 1 1 1, wLoc 2 9 9].zip [0, 0]).filter fun p => p.2 = 1) = [] →
      (updateCentroids [wLoc 1 1 1, wLoc 2 9 9] 2 [0, 0] [⟨1, 1⟩, ⟨9, 9⟩]).getD 1 ⟨0, 0⟩ =
        ([⟨1, 1⟩, ⟨9, 9⟩] : List Centroid).getD 1 ⟨0, 0⟩) ∧
    ((([wLoc 1 1 1, wLoc 2 9 9].zip [0, 0]).filter fun p => p.2 = 1) ≠ [] →
      (updateCentroids [wLoc 1 1 1, wLoc 2 9 9] 2 [0, 0] [⟨1, 1⟩, ⟨9, 9⟩]).getD 1 ⟨0, 0⟩ =
        ⟨(((([wLoc 1 1 1, wLoc 2 9 9].zip [0, 0]).filter
              fun p => p.2 = 1).map Prod.fst).map latOf).sum /
            ((([wLoc 1 1 1, wLoc 2 9 9].zip [0, 0]).filter
              fun p => p.2 = 1).map Prod.fst).length,
          (((([wLoc 1 1 1, wLoc 2 9 9].zip [0, 0]).filter
              fun p => p.2 = 1).map Prod.fst).map lngOf).sum /
            ((([wLoc 1 1 1, wLoc 2 9 9].zip [0, 0]).filter
              fun p => p.2 = 1).map Prod.fst).length⟩) ∧
    (∀ (fuel : ℕ) (cs0 : List Centroid) (asg0 : List ℕ), 1 ≤ fuel → cs0.length = 2 →
      ∃ cs2, cs2.length = 2 ∧
        kmeansLoop sqDist [wLoc 1 1 1, wLoc 2 9 9] 2 fuel cs0 asg0 =
          [wLoc 1 1 1, wLoc 2 9 9].map fun loc => closestCentroid sqDist loc cs2)) :=
  updateCentroids_contract sqDist [wLoc 1 1 1, wLoc 2 9 9] 2 [0, 0]
    [⟨1, 1⟩, ⟨9, 9⟩] (by decide) 1 (by decide)

/-! ## Route assembly: shape of every generated stop list -/

theorem mapSeq_length (f : ℕ → α → β) :
    ∀ (i : ℕ) (l : List α), (mapSeq f i l).length = l.length := by
  intro i l
  induction l generalizing i with
  | nil => rfl
  | cons x t ih => simp [mapSeq, ih]

theorem mem_mapSeq (f : ℕ → α → β) :
    ∀ (l : List α) (i : ℕ) (x : β), x ∈ mapSeq f i l → ∃ j y, y ∈ l ∧ x = f j y := by
  intro l
  induction l with
  | nil => intro i x hx; exact absurd hx (List.not_mem_nil x)
  | cons a t ih =>
    intro i x hx
    rcases List.mem_cons.mp hx with rfl | hx2
    · exact ⟨i, a, List.mem_cons_self a t, rfl⟩
    · obtain ⟨j, y, hy, rfl⟩ := ih (i + 1) x hx2
      exact ⟨j, y, List.mem_cons_of_mem a hy, rfl⟩

theorem middleStops_sandwich (a b : RouteStop) (l : List RouteStop) :
    middleStops (a :: l ++ [b]) = l := by
  unfold middleStops
  simp

theorem mapSeq_reseq_sequence :
    ∀ (l : List RouteStop) (i : ℕ),
      (mapSeq (fun j s => { s with sequence := j + 2 }) i l).map (·.sequence) =
        List.range' (i + 2) l.length := by
  intro l
  induction l with
  | nil => intro i; rfl
  | cons x t ih =>
    intro i
    rw [mapSeq, List.map_cons, ih (i + 1)]
    rfl

theorem mapSeq_mkDelivery_sequence :
    ∀ (l : List Location) (i : ℕ),
      (mapSeq mkDeliveryStop i l).map (·.sequence) = List.range' (i + 2) l.length := by
  intro l
  induction l with
  | nil => intro i; rfl
  | cons x t ih =>
    intro i
    rw [mapSeq, List.map_cons, ih (i + 1)]
    rfl

theorem range'_sandwich (n : ℕ) :
    1 :: (List.range' 2 n ++ [n + 2]) = List.range' 1 (n + 2) := by
  have h2 : (1 : ℕ) + (n + 1) = n + 2 := by omega
  rw [List.range'_1_concat 1 (n + 1), h2]
  rfl

theorem stopCore_reseq (s : RouteStop) (j : ℕ) :
    stopCore { s with sequence := j } = stopCore s := rfl

theorem stopCore_mkDeliveryStop (j : ℕ) (loc : Location) :
    stopCore (mkDeliveryStop j loc) = stopCore (mkDeliveryStop 0 loc) := rfl

theorem createWarehouseStop_sequence (wh : Option WorkLocation) (s : ℕ) (b : Bool) :
    (createWarehouseStop wh s b).sequence = s := rfl

theorem processCluster_stopCount (d4 : ℚ → ℚ → ℚ → ℚ → ℚ) (wh : Option WorkLocation)
    (opt : Optimizer) (cl : List Location) :
    (processCluster d4 wh opt cl).stopCount = (processCluster d4 wh opt cl).stopsJson.length := by
  unfold processCluster
  dsimp only
  split <;> rfl

theorem processBlock_stopCount (d4 : ℚ → ℚ → ℚ → ℚ → ℚ) (wh : Option WorkLocation)
    (opt : Optimizer) (b : List Location) :
    (processBlock d4 wh opt b).stopCount = (processBlock d4 wh opt b).stopsJson.length := by
  unfold processBlock
  dsimp only
  split
  · rfl
  · split <;> rfl

theorem processCluster_link (d4 : ℚ → ℚ → ℚ → ℚ → ℚ) (wh : Option WorkLocation)
    (opt : Optimizer) (cl : List Location) :
    (processCluster d4 wh opt cl).routeLink =
      generateGoogleMapsUrl ((processCluster d4 wh opt cl).stopsJson) := by
  unfold processCluster
  dsimp only
  split <;> rfl

theorem processBlock_link (d4 : ℚ → ℚ → ℚ → ℚ → ℚ) (wh : Option WorkLocation)
    (opt : Optimizer) (b : List Location) :
    (processBlock d4 wh opt b).routeLink =
      generateGoogleMapsUrl ((processBlock d4 wh opt b).stopsJson) := by
  unfold processBlock
  dsimp only
  split
  · rfl
  · split <;> rfl

theorem processCluster_shape (d4 : ℚ → ℚ → ℚ → ℚ → ℚ) (wh : Option WorkLocation)
    (opt : Optimizer) (cluster : List Location) (hopt : OptimizerSound opt) :
    ∃ mids : List RouteStop,
      (processCluster d4 wh opt cluster).stopsJson =
        createWarehouseStop wh 1 true :: mids ++
          [createWarehouseStop wh (mids.length + 2) false] ∧
      mids.map (·.sequence) = List.range' 2 mids.length ∧
      ∀ m ∈ mids, ∃ loc ∈ cluster, stopCore m = stopCore (mkDeliveryStop 0 loc) := by
  unfold processCluster
  dsimp only
  split
  next g hg =>
    refine ⟨_, rfl, ?_, ?_⟩
    · rw [mapSeq_length]
      exact mapSeq_reseq_sequence _ 0
    · intro m hm
      obtain ⟨j, y, hy, rfl⟩ := mem_mapSeq _ _ _ _ hm
      obtain ⟨z, hz, hcore⟩ := hopt _ _ hg y hy
      rw [middleStops_sandwich] at hz
      obtain ⟨j2, loc, hloc, rfl⟩ := mem_mapSeq _ _ _ _ hz
      refine ⟨loc, ?_, ?_⟩
      · exact (nearestNeighborOrdering_perm d4 cluster).mem_iff.mp hloc
      · rw [stopCore_reseq, hcore, stopCore_mkDeliveryStop]
  next hg =>
    refine ⟨_, rfl, ?_, ?_⟩
    · rw [mapSeq_length]
      exact mapSeq_mkDelivery_sequence _ 0
    · intro m hm
      obtain ⟨j, loc, hloc, rfl⟩ := mem_mapSeq _ _ _ _ hm
      exact ⟨loc, (nearestNeighborOrdering_perm d4 cluster).mem_iff.mp hloc,
        stopCore_mkDeliveryStop j loc⟩

theorem processBlock_shape (d4 : ℚ → ℚ → ℚ → ℚ → ℚ) (wh : Option WorkLocation)
    (opt : Optimizer) (blockLocations : List Location) (hopt : OptimizerSound opt) :
    ∃ mids : List RouteStop,
      (processBlock d4 wh opt blockLocations).stopsJson =
        createWarehouseStop wh 1 true :: mids ++
          [createWarehouseStop wh (mids.length + 2) false] ∧
      mids.map (·.sequence) = List.range' 2 mids.length ∧
      ∀ m ∈ mids, ∃ loc ∈ blockLocations, stopCore m = stopCore (mkDeliveryStop 0 loc) := by
  unfold processBlock
  dsimp only
  split
  next g hg =>
    have hg2 : opt (createWarehouseStop wh 1 true ::
        mapSeq mkDeliveryStop 0 blockLocations ++
        [createWarehouseStop wh ((mapSeq mkDeliveryStop 0 blockLocations).length + 2) false]) =
        some g := by
      by_cases hc : (((mapSeq mkDeliveryStop 0 blockLocations).all fun s =>
          s.lat.isSome && s.lng.isSome) &&
          ((createWarehouseStop wh 1 true).lat.isSome &&
            (createWarehouseStop wh 1 true).lng.isSome)) = true
      · rw [if_pos hc] at hg
        exact hg
      · rw [if_neg hc] at hg
        exact absurd hg (by simp)
    refine ⟨_, rfl, ?_, ?_⟩
    · rw [mapSeq_length]
      exact mapSeq_reseq_sequence _ 0
    · intro m hm
      obtain ⟨j, y, hy, rfl⟩ := mem_mapSeq _ _ _ _ hm
      obtain ⟨z, hz, hcore⟩ := hopt _ _ hg2 y hy
      rw [middleStops_sandwich] at hz
      obtain ⟨j2, loc, hloc, rfl⟩ := mem_mapSeq _ _ _ _ hz
      exact ⟨loc, hloc, by rw [stopCore_reseq, hcore, stopCore_mkDeliveryStop]⟩
  next hg =>
    split
    · refine ⟨_, rfl, ?_, ?_⟩
      · rw [mapSeq_length]
        exact mapSeq_mkDelivery_sequence _ 0
      · intro m hm
        obtain ⟨j, loc, hloc, rfl⟩ := mem_mapSeq _ _ _ _ hm
        exact ⟨loc, hloc, stopCore_mkDeliveryStop j loc⟩
    · refine ⟨_, rfl, ?_, ?_⟩
      · rw [mapSeq_length]
        exact mapSeq_mkDelivery_sequence _ 0
      · intro m hm
        obtain ⟨j, loc, hloc, rfl⟩ := mem_mapSeq _ _ _ _ hm
        exact ⟨loc, hloc, stopCore_mkDeliveryStop j loc⟩

theorem kMeansClustering_zero (d4 : ℚ → ℚ → ℚ → ℚ → ℚ) (locs : List Location) :
    kMeansClustering d4 locs 0 = [] := by
  unfold kMeansClustering
  dsimp only
  rw [if_pos (Or.inr rfl)]

theorem mem_of_mem_kMeans (d4 : ℚ → ℚ → ℚ → ℚ → ℚ) (locs : List Location) (k : ℕ)
    (cl : List Location) (x : Location) (hcl : cl ∈ kMeansClustering d4 locs k)
    (hx : x ∈ cl) : x ∈ locs := by
  rcases Nat.eq_zero_or_pos k with rfl | hk
  · rw [kMeansClustering_zero] at hcl
    exact absurd hcl (List.not_mem_nil cl)
  · have hperm := (kMeansClustering_partition_aux d4 locs k hk).1
    have hflat : x ∈ (kMeansClustering d4 locs k).flatten := List.mem_flatten_of_mem hcl hx
    exact List.mem_of_mem_filter (hperm.mem_iff.mp hflat)

theorem roundRobinBlocks_subset (locs : List Location) (spd : ℕ) :
    ∀ (fuel start : ℕ) (b : List Location), b ∈ roundRobinBlocks locs spd fuel start →
      ∀ x ∈ b, x ∈ locs := by
  intro fuel
  induction fuel with
  | zero => intro start b hb; exact absurd hb (List.not_mem_nil b)
  | succ f ih =>
    intro start b hb
    rw [roundRobinBlocks] at hb
    split at hb
    · exact absurd hb (List.not_mem_nil b)
    · rcases List.mem_cons.mp hb with rfl | hb2
      · intro x hx
        exact List.mem_of_mem_drop (List.mem_of_mem_take hx)
      · exact ih (start + spd) b hb2

theorem mem_generateRoutes (d4 : ℚ → ℚ → ℚ → ℚ → ℚ) (wh : Option WorkLocation)
    (opt : Optimizer) (locs : List Location) (k : ℕ) (r : GeneratedRoute)
    (hr : r ∈ generateRoutesForDay d4 wh opt locs k) :
    (∃ cl, cl ∈ kMeansClustering d4 locs k ∧ r = processCluster d4 wh opt cl) ∨
    (∃ b, (∀ x ∈ b, x ∈ locs) ∧ r = processBlock d4 wh opt b) := by
  unfold generateRoutesForDay at hr
  dsimp only at hr
  split at hr
  · obtain ⟨cl, hcl, rfl⟩ := List.mem_map.mp hr
    exact Or.inl ⟨cl, List.mem_of_mem_filter hcl, rfl⟩
  · obtain ⟨b, hb, rfl⟩ := List.mem_map.mp hr
    exact Or.inr ⟨b, roundRobinBlocks_subset locs _ k 0 b hb, rfl⟩

theorem route_shape_of (wh : Option WorkLocation) (r : GeneratedRoute)
    (mids : List RouteStop)
    (hstops : r.stopsJson = createWarehouseStop wh 1 true :: mids ++
      [createWarehouseStop wh (mids.length + 2) false])
    (hcount : r.stopCount = r.stopsJson.length)
    (hseq : mids.map (·.sequence) = List.range' 2 mids.length) :
    r.stopCount = r.stopsJson.length ∧
    r.stopsJson.map (·.sequence) = List.range' 1 r.stopCount := by
  refine ⟨hcount, ?_⟩
  have hlen : r.stopsJson.length = mids.length + 2 := by
    rw [hstops]
    simp
  rw [hstops, hcount, hlen]
  simp only [List.map_cons, List.map_append, List.map_nil, createWarehouseStop_sequence]
  rw [hseq]
  exact range'_sandwich mids.length

/-- C5: every generated route's stop list is a synthetic start-depot stop
(customer name prefixed `"Start: "`, sequence 1), followed by delivery stops
drawn from the input locations, followed by a synthetic end-depot stop
(customer name prefixed `"End: "`, sequence `deliveryCount + 2`); the
sequence numbers are exactly `1..stopCount` with `stopCount` the list
length — whether the (stop-preserving) external optimizer reordered the
deliveries or was unavailable. -/
theorem generateRoutesForDay_route_shape (d4 : ℚ → ℚ → ℚ → ℚ → ℚ)
    (wh : Option WorkLocation) (opt : Optimizer) (locs : List Location) (k : ℕ)
    (hopt : OptimizerSound opt) :
    ∀ r ∈ generateRoutesForDay d4 wh opt locs k,
      r.stopCount = r.stopsJson.length ∧
      r.stopsJson.map (·.sequence) = List.range' 1 r.stopCount ∧
      ∃ mids : List RouteStop,
        r.stopsJson = createWarehouseStop wh 1 true :: mids ++
          [createWarehouseStop wh (mids.length + 2) false] ∧
        (∃ nm, (createWarehouseStop wh 1 true).customerName = "Start: " ++ nm) ∧
        (createWarehouseStop wh 1 true).sequence = 1 ∧
        (∃ nm, (createWarehouseStop wh (mids.length + 2) false).customerName =
          "End: " ++ nm) ∧
        (createWarehouseStop wh (mids.length + 2) false).sequence = mids.length + 2 ∧
        ∀ m ∈ mids, ∃ loc ∈ locs, stopCore m = stopCore (mkDeliveryStop 0 loc) := by
  intro r hr
  rcases mem_generateRoutes d4 wh opt locs k r hr with ⟨cl, hcl, rfl⟩ | ⟨b, hb, rfl⟩
  · obtain ⟨mids, hstops, hseq, hmem⟩ := processCluster_shape d4 wh opt cl hopt
    obtain ⟨h1, h2⟩ := route_shape_of wh _ mids hstops
      (processCluster_stopCount d4 wh opt cl) hseq
    refine ⟨h1, h2, mids, hstops, ⟨_, rfl⟩, rfl, ⟨_, rfl⟩, rfl, ?_⟩
    intro m hm
    obtain ⟨loc, hloc, hcore⟩ := hmem m hm
    exact ⟨loc, mem_of_mem_kMeans d4 locs k cl loc hcl hloc, hcore⟩
  · obtain ⟨mids, hstops, hseq, hmem⟩ := processBlock_shape d4 wh opt b hopt
    obtain ⟨h1, h2⟩ := route_shape_of wh _ mids hstops
      (processBlock_stopCount d4 wh opt b) hseq
    refine ⟨h1, h2, mids, hstops, ⟨_, rfl⟩, rfl, ⟨_, rfl⟩, rfl, ?_⟩
    intro m hm
    obtain ⟨loc, hloc, hcore⟩ := hmem m hm
    exact ⟨loc, hb loc hloc, hcore⟩

theorem generateRoutesForDay_route_shape_witness :
    wRoute.stopCount = wRoute.stopsJson.length ∧
    wRoute.stopsJson.map (·.sequence) = List.range' 1 wRoute.stopCount ∧
    ∃ mids : List RouteStop,
      wRoute.stopsJson = createWarehouseStop none 1 true :: mids ++
        [createWarehouseStop none (mids.length + 2) false] ∧
      (∃ nm, (createWarehouseStop none 1 true).customerName = "Start: " ++ nm) ∧
      (createWarehouseStop none 1 true).sequence = 1 ∧
      (∃ nm, (createWarehouseStop none (mids.length + 2) false).customerName =
        "End: " ++ nm) ∧
      (createWarehouseStop none (mids.length + 2) false).sequence = mids.length + 2 ∧
      ∀ m ∈ mids, ∃ loc ∈ [wLoc 1 1 1], stopCore m = stopCore (mkDeliveryStop 0 loc) :=
  generateRoutesForDay_route_shape sqDist none noOpt [wLoc 1 1 1] 1
    (by intro s res h x hx; simp [noOpt] at h) wRoute
    (by rw [wRoute]; exact List.head_mem (by decide))

/-- C9: every generated route's map link is the directions base URL followed
by the percent-encoded addresses of its stops, joined by `/`, in final
sequence order. -/
theorem generateRoutesForDay_route_link (d4 : ℚ → ℚ → ℚ → ℚ → ℚ)
    (wh : Option WorkLocation) (opt : Optimizer) (locs : List Location) (k : ℕ) :
    ∀ r ∈ generateRoutesForDay d4 wh opt locs k,
      r.stopsJson ≠ [] ∧
      r.routeLink = "https://www.google.com/maps/dir/" ++
        String.intercalate "/" (r.stopsJson.map fun s => encodeURIComponent s.address) := by
  intro r hr
  have hlink : r.routeLink = generateGoogleMapsUrl r.stopsJson := by
    rcases mem_generateRoutes d4 wh opt locs k r hr with ⟨cl, _, rfl⟩ | ⟨b, _, rfl⟩
    · exact processCluster_link d4 wh opt cl
    · exact processBlock_link d4 wh opt b
  have hne : r.stopsJson ≠ [] := by
    rcases mem_generateRoutes d4 wh opt locs k r hr with ⟨cl, _, rfl⟩ | ⟨b, _, rfl⟩
    · unfold processCluster
      dsimp only
      split <;> simp [mkGeneratedRoute]
    · unfold processBlock
      dsimp only
      split
      · simp [mkGeneratedRoute]
      · split <;> simp [mkGeneratedRoute]
  refine ⟨hne, ?_⟩
  rw [hlink]
  unfold generateGoogleMapsUrl
  rw [if_neg (fun h => hne (List.length_eq_zero.mp h))]

theorem generateRoutesForDay_route_link_witness :
    wRoute.stopsJson ≠ [] ∧
    wRoute.routeLink = "https://www.google.com/maps/dir/" ++
      String.intercalate "/" (wRoute.stopsJson.map fun s => encodeURIComponent s.address) :=
  generateRoutesForDay_route_link sqDist none noOpt [wLoc 1 1 1] 1 wRoute
    (by rw [wRoute]; exact List.head_mem (by decide))

/-! ## Estimated time: the JS-truthiness test on the distance -/

theorem processCluster_metrics_none (d4 : ℚ → ℚ → ℚ → ℚ → ℚ)
    (wh : Option WorkLocation) (opt : Optimizer) (cl : List Location)
    (hnone : ∀ s, opt s = none) :
    ∃ stops n, processCluster d4 wh opt cl =
      mkGeneratedRoute stops (calculateRouteDistance d4 stops)
        (some (localEstimatedTime (calculateRouteDistance d4 stops) n)) ∧
      stops.length = n + 2 := by
  unfold processCluster
  dsimp only
  rw [hnone]
  exact ⟨_, _, rfl, by simp⟩

theorem processBlock_metrics_none (d4 : ℚ → ℚ → ℚ → ℚ → ℚ)
    (wh : Option WorkLocation) (opt : Optimizer) (b : List Location)
    (hnone : ∀ s, opt s = none) :
    (∃ stops n, processBlock d4 wh opt b =
      mkGeneratedRoute stops (calculateRouteDistance d4 stops)
        (some (localEstimatedTime (calculateRouteDistance d4 stops) n)) ∧
      stops.length = n + 2) ∨
    (∃ (stops : List RouteStop) (n : ℕ), processBlock d4 wh opt b =
      mkGeneratedRoute stops none (some (15 * (n : ℤ))) ∧ stops.length = n + 2) := by
  unfold processBlock
  dsimp only
  rw [hnone, ite_self]
  split
  next g hg => simp at hg
  next =>
    split
    · exact Or.inl ⟨_, _, rfl, by simp⟩
    · exact Or.inr ⟨_, _, rfl, by simp⟩

/-- C1 (amended): for every route whose metrics come from the local
heuristic (external optimizer unavailable), the estimated time is
`round(d/40*60) + 5 * deliveryCount` minutes when the total distance is
non-null **and nonzero**, and the flat `15 * deliveryCount` minutes when
the distance is null **or zero** — the code tests the distance for JS
truthiness, so a zero distance also takes the flat estimate. -/
theorem generateRoutesForDay_heuristic_time (d4 : ℚ → ℚ → ℚ → ℚ → ℚ)
    (wh : Option WorkLocation) (opt : Optimizer) (locs : List Location) (k : ℕ)
    (hnone : ∀ s, opt s = none) :
    ∀ r ∈ generateRoutesForDay d4 wh opt locs k,
      (∀ q, r.totalDistance = some q → q ≠ 0 →
        r.estimatedTime = some (jsRound (q / 40 * 60) + 5 * ((r.stopCount - 2 : ℕ) : ℤ))) ∧
      ((r.totalDistance = none ∨ r.totalDistance = some 0) →
        r.estimatedTime = some (15 * ((r.stopCount - 2 : ℕ) : ℤ))) := by
  intro r hr
  have main : ∀ (stops : List RouteStop) (n : ℕ),
      r = mkGeneratedRoute stops (calculateRouteDistance d4 stops)
        (some (localEstimatedTime (calculateRouteDistance d4 stops) n)) →
      stops.length = n + 2 →
      (∀ q, r.totalDistance = some q → q ≠ 0 →
        r.estimatedTime = some (jsRound (q / 40 * 60) + 5 * ((r.stopCount - 2 : ℕ) : ℤ))) ∧
      ((r.totalDistance = none ∨ r.totalDistance = some 0) →
        r.estimatedTime = some (15 * ((r.stopCount - 2 : ℕ) : ℤ))) := by
    intro stops n heq hlen
    subst heq
    have hsc : (mkGeneratedRoute stops (calculateRouteDistance d4 stops)
        (some (localEstimatedTime (calculateRouteDistance d4 stops) n))).stopCount - 2 = n := by
      simp [mkGeneratedRoute, hlen]
    rw [hsc]
    constructor
    · intro q hq hq0
      have hq2 : calculateRouteDistance d4 stops = some q := hq
      simp only [mkGeneratedRoute] at hq2 ⊢
      rw [hq2, localEstimatedTime]
      simp [hq0]
    · intro hd
      simp only [mkGeneratedRoute] at hd ⊢
      rcases hd with hd | hd <;> rw [hd, localEstimatedTime] <;> simp
  rcases mem_generateRoutes d4 wh opt locs k r hr with ⟨cl, _, rfl⟩ | ⟨b, _, rfl⟩
  · obtain ⟨stops, n, heq, hlen⟩ := processCluster_metrics_none d4 wh opt cl hnone
    exact main stops n heq hlen
  · rcases processBlock_metrics_none d4 wh opt b hnone with
      ⟨stops, n, heq, hlen⟩ | ⟨stops, n, heq, hlen⟩
    · exact main stops n heq hlen
    · rw [heq]
      have hsc : (mkGeneratedRoute stops none (some (15 * (n : ℤ)))).stopCount - 2 = n := by
        simp [mkGeneratedRoute, hlen]
      rw [hsc]
      refine ⟨?_, ?_⟩
      · intro q hq hq0
        simp [mkGeneratedRoute] at hq
      · intro _
        rfl

/-- C1 counterexample: a generated route whose every stop sits at the
warehouse point has computable total distance `0` (non-null), yet its
estimated time is the flat `15 * deliveryCount = 15`, not the claimed
`round(0/40*60) + 5 * 1 = 5`; and a route whose metrics the provider
supplied (10 km, 99 min) has non-null distance with estimated time `99`,
not the claimed `round(10/40*60) + 5 = 20`. -/
theorem generateRoutesForDay_time_formula_cex :
    ((generateRoutesForDay zeroDist none noOpt [cexLoc] 1).map
      fun r => (r.totalDistance, r.estimatedTime, r.stopCount)) = [(some 0, some 15, 3)] ∧
    jsRound ((0 : ℚ) / 40 * 60) + 5 * 1 = (5 : ℤ) ∧
    (15 : ℤ) ≠ 5 ∧
    ((generateRoutesForDay zeroDist none tenKmOpt [cexLoc] 1).map
      fun r => (r.totalDistance, r.estimatedTime)) = [(some 10, some 99)] ∧
    jsRound ((10 : ℚ) / 40 * 60) + 5 * 1 = (20 : ℤ) ∧
    (99 : ℤ) ≠ 20 := by
  refine ⟨by with_unfolding_all rfl, by norm_num [jsRound], by norm_num,
    by with_unfolding_all rfl, by norm_num [jsRound], by norm_num⟩

theorem generateRoutesForDay_heuristic_time_witness :
    (∀ q, wRouteZero.totalDistance = some q → q ≠ 0 →
      wRouteZero.estimatedTime =
        some (jsRound (q / 40 * 60) + 5 * ((wRouteZero.stopCount - 2 : ℕ) : ℤ))) ∧
    ((wRouteZero.totalDistance = none ∨ wRouteZero.totalDistance = some 0) →
      wRouteZero.estimatedTime = some (15 * ((wRouteZero.stopCount - 2 : ℕ) : ℤ))) :=
  generateRoutesForDay_heuristic_time zeroDist none noOpt [cexLoc] 1 (fun _ => rfl)
    wRouteZero (by rw [wRouteZero]; exact List.head_mem (by with_unfolding_all decide))

/-! ## The no-coordinates round-robin fallback -/

theorem roundRobinBlocks_length_le (locs : List Location) (spd : ℕ) :
    ∀ (fuel start : ℕ), (roundRobinBlocks locs spd fuel start).length ≤ fuel := by
  intro fuel
  induction fuel with
  | zero => intro start; simp [roundRobinBlocks]
  | succ f ih =>
    intro start
    rw [roundRobinBlocks]
    split
    · simp
    · simpa using Nat.succ_le_succ (ih (start + spd))

theorem roundRobinBlocks_sizes (locs : List Location) (spd : ℕ) (hspd : 1 ≤ spd) :
    ∀ (fuel start : ℕ),
      (roundRobinBlocks locs spd fuel start).map List.length =
        ((List.range fuel).map fun i => min spd (locs.length - (start + i * spd))).filter
          (fun m => m ≠ 0) := by
  intro fuel
  induction fuel with
  | zero => intro start; rfl
  | succ f ih =>
    intro start
    rw [roundRobinBlocks]
    split
    next hle =>
      simp only [List.map_nil]
      symm
      rw [List.filter_eq_nil_iff]
      intro m hm
      obtain ⟨i, _, rfl⟩ := List.mem_map.mp hm
      have hz : locs.length - (start + i * spd) = 0 := by omega
      simp [hz]
    next hgt =>
      rw [List.map_cons, ih (start + spd), List.range_succ_eq_map, List.map_cons,
        List.filter_cons]
      have hhead : 0 < min spd (locs.length - (start + 0 * spd)) :=
        lt_min_iff.mpr ⟨by omega, by omega⟩
      rw [if_pos (by simpa using Nat.pos_iff_ne_zero.mp hhead)]
      congr 1
      · rw [List.length_take, List.length_drop]
        congr 1
        omega
      · rw [List.map_map]
        congr 1
        apply List.map_congr_left
        intro i _
        have hsm : (i + 1) * spd = i * spd + spd := Nat.succ_mul i spd
        have : locs.length - (start + spd + i * spd) =
            locs.length - (start + (i + 1) * spd) := by omega
        simp [Function.comp, this]

theorem roundRobinBlocks_flatten (locs : List Location) (spd : ℕ) :
    ∀ (fuel start : ℕ), (roundRobinBlocks locs spd fuel start).flatten =
      (locs.drop start).take (spd * fuel) := by
  intro fuel
  induction fuel with
  | zero => intro start; simp [roundRobinBlocks]
  | succ f ih =>
    intro start
    rw [roundRobinBlocks]
    split
    next hle =>
      rw [List.drop_eq_nil_of_le hle]
      simp
    next hgt =>
      rw [List.flatten_cons, ih (start + spd)]
      have hmul : spd * (f + 1) = spd + spd * f := by ring
      rw [hmul, List.take_add]
      congr 1
      rw [List.drop_drop]

theorem mapSeq_core (b : List Location) :
    ∀ i : ℕ, (mapSeq mkDeliveryStop i b).map stopCore =
      b.map fun loc => stopCore (mkDeliveryStop 0 loc) := by
  induction b with
  | nil => intro i; rfl
  | cons x t ih =>
    intro i
    rw [mapSeq, List.map_cons, List.map_cons, ih (i + 1), stopCore_mkDeliveryStop]

theorem processBlock_stops_none (d4 : ℚ → ℚ → ℚ → ℚ → ℚ) (wh : Option WorkLocation)
    (opt : Optimizer) (b : List Location) (hnone : ∀ s, opt s = none) :
    (processBlock d4 wh opt b).stopsJson =
      createWarehouseStop wh 1 true :: mapSeq mkDeliveryStop 0 b ++
        [createWarehouseStop wh ((mapSeq mkDeliveryStop 0 b).length + 2) false] := by
  unfold processBlock
  dsimp only
  rw [hnone, ite_self]
  split
  next g hg => simp at hg
  next => split <;> rfl

theorem processBlock_deliveries_none (d4 : ℚ → ℚ → ℚ → ℚ → ℚ)
    (wh : Option WorkLocation) (opt : Optimizer) (b : List Location)
    (hnone : ∀ s, opt s = none) :
    (middleStops (processBlock d4 wh opt b).stopsJson).map stopCore =
      b.map (fun loc => stopCore (mkDeliveryStop 0 loc)) ∧
    (processBlock d4 wh opt b).stopCount - 2 = b.length := by
  have hstops := processBlock_stops_none d4 wh opt b hnone
  constructor
  · rw [hstops, middleStops_sandwich, mapSeq_core]
  · rw [processBlock_stopCount, hstops]
    simp [mapSeq_length]

/-- C8: when some input stop lacks a coordinate, generation takes the
round-robin path: at most `k` routes; one route per non-empty block of
`ceil(n/k)` consecutive stops of the input in original order (the last
block possibly smaller); the concatenation of all routes' delivery stops is
the input list in order; and in the concrete no-coordinates scenario —
5 bare stops, `k = 2` — two routes with 3 and 2 deliveries, null total
distance, and flat time `15 * deliveryCount`. -/
theorem generateRoutesForDay_roundRobin (d4 : ℚ → ℚ → ℚ → ℚ → ℚ)
    (wh : Option WorkLocation) (opt : Optimizer) (locs : List Location) (k : ℕ)
    (hk : 1 ≤ k) (hmiss : ∃ loc ∈ locs, loc.lat = none ∨ loc.lng = none)
    (hnone : ∀ s, opt s = none) :
    (generateRoutesForDay d4 wh opt locs k).length ≤ k ∧
    ((generateRoutesForDay d4 wh opt locs k).map fun r => r.stopCount - 2) =
      specRoundRobinSizes locs.length k ∧
    ((generateRoutesForDay d4 wh opt locs k).map fun r =>
        (middleStops r.stopsJson).map stopCore).flatten =
      (locs.map fun loc => stopCore (mkDeliveryStop 0 loc)) ∧
    (∀ (d4b : ℚ → ℚ → ℚ → ℚ → ℚ) (whb : Option WorkLocation) (optb : Optimizer),
      ((generateRoutesForDay d4b whb optb fiveBare 2).map fun r =>
        (r.stopCount - 2, r.totalDistance, r.estimatedTime)) =
      [(3, none, some 45), (2, none, some 30)]) := by
  have hne : (validLocations locs).length ≠ locs.length := by
    intro heq
    obtain ⟨loc, hloc, hbad⟩ := hmiss
    have := List.filter_length_eq_length.mp heq loc hloc
    rcases hbad with h | h <;> simp [isLocated, h] at this
  have hroutes : generateRoutesForDay d4 wh opt locs k =
      (roundRobinBlocks locs (stopsPerDriverOf locs.length k) k 0).map
        (processBlock d4 wh opt) := by
    unfold generateRoutesForDay
    dsimp only
    rw [if_neg]
    intro hand
    exact hne hand.1
  have hn1 : 1 ≤ locs.length := by
    obtain ⟨loc, hloc, _⟩ := hmiss
    exact List.length_pos.mpr (List.ne_nil_of_mem hloc)
  refine ⟨?_, ?_, ?_, ?_⟩
  · rw [hroutes, List.length_map]
    exact roundRobinBlocks_length_le locs _ k 0
  · have hspd : 1 ≤ stopsPerDriverOf locs.length k := by
      unfold stopsPerDriverOf
      rw [if_neg (by omega)]
      rw [Nat.one_le_div_iff hk]
      omega
    rw [hroutes, List.map_map]
    have hcomp : ((fun r => r.stopCount - 2) ∘ processBlock d4 wh opt) =
        fun b => ((processBlock d4 wh opt b).stopCount - 2) := rfl
    rw [hcomp]
    have hmap : (roundRobinBlocks locs (stopsPerDriverOf locs.length k) k 0).map
        (fun b => (processBlock d4 wh opt b).stopCount - 2) =
        (roundRobinBlocks locs (stopsPerDriverOf locs.length k) k 0).map List.length := by
      apply List.map_congr_left
      intro b _
      exact (processBlock_deliveries_none d4 wh opt b hnone).2
    rw [hmap, roundRobinBlocks_sizes locs _ hspd k 0]
    unfold specRoundRobinSizes
    simp only [Nat.zero_add]
  · rw [hroutes, List.map_map]
    have hmap : (roundRobinBlocks locs (stopsPerDriverOf locs.length k) k 0).map
        ((fun r => (middleStops r.stopsJson).map stopCore) ∘ processBlock d4 wh opt) =
        (roundRobinBlocks locs (stopsPerDriverOf locs.length k) k 0).map
          (List.map fun loc => stopCore (mkDeliveryStop 0 loc)) := by
      apply List.map_congr_left
      intro b _
      exact (processBlock_deliveries_none d4 wh opt b hnone).1
    rw [hmap, ← List.map_flatten, roundRobinBlocks_flatten]
    have hcover : locs.length ≤ stopsPerDriverOf locs.length k * k := by
      unfold stopsPerDriverOf
      rw [if_neg (by omega), Nat.mul_comm]
      have hdm := Nat.div_add_mod (locs.length + k - 1) k
      have hml := Nat.mod_lt (locs.length + k - 1) hk
      omega
    rw [List.drop_zero, List.take_all_of_le hcover]
  · intro d4b whb optb
    with_unfolding_all rfl

theorem generateRoutesForDay_roundRobin_witness :
    ((generateRoutesForDay sqDist none noOpt fiveBare 2).length ≤ 2 ∧
    ((generateRoutesForDay sqDist none noOpt fiveBare 2).map fun r => r.stopCount - 2) =
      specRoundRobinSizes fiveBare.length 2 ∧
    ((generateRoutesForDay sqDist none noOpt fiveBare 2).map fun r =>
        (middleStops r.stopsJson).map stopCore).flatten =
      (fiveBare.map fun loc => stopCore (mkDeliveryStop 0 loc)) ∧
    (∀ (d4b : ℚ → ℚ → ℚ → ℚ → ℚ) (whb : Option WorkLocation) (optb : Optimizer),
      ((generateRoutesForDay d4b whb optb fiveBare 2).map fun r =>
        (r.stopCount - 2, r.totalDistance, r.estimatedTime)) =
      [(3, none, some 45), (2, none, some 30)])) :=
  generateRoutesForDay_roundRobin sqDist none noOpt fiveBare 2 (by omega)
    (by decide) (fun _ => rfl)

/-! ## The adapter satisfies the stop-preservation contract -/

theorem getD_mem (l : List α) (i : ℕ) (d : α) (h : i < l.length) : l.getD i d ∈ l := by
  rw [List.getD_eq_getElem l d h]
  exact List.getElem_mem h

theorem mapSeq_append (f : ℕ → α → β) :
    ∀ (l1 l2 : List α) (i : ℕ),
      mapSeq f i (l1 ++ l2) = mapSeq f i l1 ++ mapSeq f (i + l1.length) l2 := by
  intro l1
  induction l1 with
  | nil => intro l2 i; simp [mapSeq]
  | cons x t ih =>
    intro l2 i
    rw [List.cons_append, mapSeq, mapSeq, ih, List.cons_append]
    have harith : i + (x :: t).length = i + 1 + t.length := by
      simp
      omega
    rw [harith]

theorem middleStops_mapSeq (f : ℕ → RouteStop → RouteStop) (a b : RouteStop)
    (m : List RouteStop) :
    middleStops (mapSeq f 0 (a :: m ++ [b])) = mapSeq f 1 m := by
  show middleStops (f 0 a :: mapSeq f 1 (m ++ [b])) = mapSeq f 1 m
  rw [mapSeq_append]
  exact middleStops_sandwich _ _ _

theorem exists_sandwich {l : List RouteStop} (h : 2 ≤ l.length) :
    ∃ a m b, l = a :: m ++ [b] := by
  cases l with
  | nil => simp at h
  | cons a t =>
    rcases List.eq_nil_or_concat' t with rfl | ⟨m, b, rfl⟩
    · simp at h
    · exact ⟨a, m, b, rfl⟩

theorem mem_mapSeq_core (l : List RouteStop) :
    ∀ (i : ℕ) (x : RouteStop),
      x ∈ mapSeq (fun j s => { s with sequence := j + 1 }) i l →
      ∃ y ∈ l, stopCore x = stopCore y := by
  intro i x hx
  obtain ⟨j, y, hy, rfl⟩ := mem_mapSeq _ _ _ _ hx
  exact ⟨y, hy, rfl⟩

/-- When the provider's optimized-waypoint indices are in range for each
request, the environment built from `optimizeRouteWithGoogle` is
`OptimizerSound`: every stop strictly between the bookends of a returned
list is one of the stops strictly between the bookends of the request, up
to renumbering. This shows the stop-preservation hypothesis of the
route-shape theorem holds for the real adapter. -/
theorem optimizeRouteWithGoogle_sound (apiKey : Option String)
    (env : List RouteStop → FetchOutcome)
    (hidx : ∀ s ok rd rest idxs, env s = FetchOutcome.reply ok (some (rd :: rest)) →
      rd.optimizedIntermediateWaypointIndex = some idxs →
      ∀ i ∈ idxs, i < (middleStops s).length) :
    OptimizerSound (fun s => optimizeRouteWithGoogle apiKey (env s) s) := by
  intro s res h x hx
  change optimizeRouteWithGoogle apiKey (env s) s = some res at h
  rcases houtcome : env s with _ | ⟨ok, routes?⟩
  all_goals rw [houtcome] at h
  · unfold optimizeRouteWithGoogle at h
    split at h
    · exact absurd h (by simp)
    split at h
    · exact absurd h (by simp)
    split at h
    · exact absurd h (by simp)
    · exact absurd h (by simp)
  · rcases routes? with _ | rlist
    · unfold optimizeRouteWithGoogle at h
      split at h
      · exact absurd h (by simp)
      split at h
      · exact absurd h (by simp)
      split at h
      · exact absurd h (by simp)
      · cases ok <;> simp at h
    · rcases rlist with _ | ⟨rd, rest⟩
      · unfold optimizeRouteWithGoogle at h
        split at h
        · exact absurd h (by simp)
        split at h
        · exact absurd h (by simp)
        split at h
        · exact absurd h (by simp)
        · cases ok <;> simp at h
      · rcases ok with _ | _
        · unfold optimizeRouteWithGoogle at h
          split at h
          · exact absurd h (by simp)
          split at h
          · exact absurd h (by simp)
          split at h
          · exact absurd h (by simp)
          · simp at h
        · unfold optimizeRouteWithGoogle at h
          split at h
          · exact absurd h (by simp)
          split at h
          next hlen2 => exact absurd h (by simp)
          split at h
          · exact absurd h (by simp)
          next hlen2 hfilter =>
            dsimp only at h
            rw [if_neg (by simp : ¬ ¬ (true = true))] at h
            obtain rfl : res = _ := (Option.some.inj h).symm
            dsimp only at hx
            have hslen : 2 ≤ s.length := by omega
            rcases hidxcase : rd.optimizedIntermediateWaypointIndex with _ | idxs
            · rw [hidxcase] at hx
              dsimp only at hx
              obtain ⟨a, m, b, hs⟩ := exists_sandwich hslen
              rw [hs, middleStops_mapSeq] at hx
              obtain ⟨y, hy, hcore⟩ := mem_mapSeq_core m 1 x hx
              refine ⟨y, ?_, hcore⟩
              rw [hs, middleStops_sandwich]
              exact hy
            · rw [hidxcase] at hx
              dsimp only at hx
              by_cases hm : 0 < (middleStops s).length
              · rw [if_pos hm] at hx
                rw [middleStops_mapSeq] at hx
                obtain ⟨y, hy, hcore⟩ := mem_mapSeq_core _ 1 x hx
                obtain ⟨i, hi, rfl⟩ := List.mem_map.mp hy
                have hilt : i < (middleStops s).length :=
                  hidx s true rd rest idxs houtcome hidxcase i hi
                exact ⟨(middleStops s).getD i default,
                  getD_mem (middleStops s) i default hilt, hcore⟩
              · rw [if_neg hm] at hx
                obtain ⟨a, m, b, hs⟩ := exists_sandwich hslen
                rw [hs, middleStops_mapSeq] at hx
                obtain ⟨y, hy, hcore⟩ := mem_mapSeq_core m 1 x hx
                refine ⟨y, ?_, hcore⟩
                rw [hs, middleStops_sandwich]
                exact hy

end RouteSimply
